import Mathlib

/-!
Verification of the weekday-master baseline engine of `market_app`
(`src/app/advanced/`): the incremental merge statistics store
(`adv_aggregator._apply_weekday_update`, `aggregate_day_for_key`), the
ledger-gated bulk reconcilers (`weekday_master_bulk.update_master_from_daily`),
the atomic writers (`adv_io.write_weekday_master`,
`weekday_master_bulk.write_master_atomic`), the straddle-pair deriver
(`adv_aggregator._apply_pairs_from_base`), the streaming updater
(`adv_aggregator.stream_update_for_latest_minute`) and the session
orchestrator (`market_session.main`).

Python `dict`s are embedded as association lists with unique keys
(insertion `dictInsert` replaces the binding if the key is present, else
appends, so key-uniqueness is preserved); `float` premium arithmetic is
embedded as exact rational (`ℚ`) arithmetic.
-/

namespace MarketApp

/-- Dictionary lookup on an association list (Python `d.get(k)` /
`d[k]`): first binding wins; with unique keys this is the dict lookup. -/
def alookup [DecidableEq α] : List (α × β) → α → Option β
  | [], _ => none
  | (k, v) :: rest, k' => if k' = k then some v else alookup rest k'

/-- Dictionary assignment `d[k] = v`: replace the existing binding for
`k` in place, or append a new binding at the end (Python dicts keep
insertion order). -/
def dictInsert [DecidableEq α] : List (α × β) → α → β → List (α × β)
  | [], k, v => [(k, v)]
  | (k0, v0) :: rest, k, v =>
      if k0 = k then (k, v) :: rest else (k0, v0) :: dictInsert rest k v

theorem alookup_dictInsert_self [DecidableEq α] (m : List (α × β)) (k : α) (v : β) :
    alookup (dictInsert m k v) k = some v := by
  induction m with
  | nil => simp [dictInsert, alookup]
  | cons hd tl ih =>
      obtain ⟨k0, v0⟩ := hd
      by_cases h : k0 = k
      · subst h; simp [dictInsert, alookup]
      · simp [dictInsert, h, alookup, Ne.symm h, ih]

theorem alookup_dictInsert_ne [DecidableEq α] (m : List (α × β)) (k k' : α) (v : β)
    (h : k' ≠ k) : alookup (dictInsert m k v) k' = alookup m k' := by
  induction m with
  | nil => simp [dictInsert, alookup, h]
  | cons hd tl ih =>
      obtain ⟨k0, v0⟩ := hd
      by_cases hk : k0 = k
      · subst hk
        simp [dictInsert, alookup, h]
      · by_cases hk' : k' = k0
        · subst hk'; simp [dictInsert, hk, alookup]
        · simp [dictInsert, hk, alookup, hk', ih]

/-- One row of a weekday master file (`adv_io.WeekdayRow`).  The
floating-point statistics are embedded as rationals. -/
structure WeekdayRow where
  time_bucket : String
  n_tot : Nat
  sum_tot : ℚ
  avg_tot : ℚ
  min_tot : ℚ
  max_tot : ℚ
  last_updated : String
  deriving Repr, DecidableEq

/-- In-memory contents of one weekday master file: the
`Dict[str, WeekdayRow]` of `adv_io.read_weekday_master`, keyed by
`time_bucket`. -/
abbrev Master := List (String × WeekdayRow)

/-- The merge arithmetic of `adv_aggregator._apply_weekday_update`
(its in-memory effect on the row map; the surrounding read/write is
handled by the callers' models).  `now` stands for
`to_utc_iso(datetime.now(UTC))`. -/
def applyWeekdayUpdate (existing : Master) (tb : String) (tot : ℚ) (now : String) : Master :=
  let updated : WeekdayRow :=
    match alookup existing tb with
    | some prev =>
        { time_bucket := tb
          n_tot := prev.n_tot + 1
          sum_tot := prev.sum_tot + tot
          avg_tot := (prev.sum_tot + tot) / (prev.n_tot + 1)
          min_tot := min prev.min_tot tot
          max_tot := max prev.max_tot tot
          last_updated := now }
    | none =>
        { time_bucket := tb, n_tot := 1, sum_tot := tot, avg_tot := tot
          min_tot := tot, max_tot := tot, last_updated := now }
  dictInsert existing tb updated

/-- The row produced by one `_apply_weekday_update` merge, as a function
of the previous row (if any): the two arms of the `if prev:` branch. -/
def mergeRow (prev : Option WeekdayRow) (tb : String) (tot : ℚ) (now : String) : WeekdayRow :=
  match prev with
  | some prev =>
      { time_bucket := tb
        n_tot := prev.n_tot + 1
        sum_tot := prev.sum_tot + tot
        avg_tot := (prev.sum_tot + tot) / (prev.n_tot + 1)
        min_tot := min prev.min_tot tot
        max_tot := max prev.max_tot tot
        last_updated := now }
  | none =>
      { time_bucket := tb, n_tot := 1, sum_tot := tot, avg_tot := tot
        min_tot := tot, max_tot := tot, last_updated := now }

theorem applyWeekdayUpdate_eq_dictInsert (m : Master) (tb : String) (tot : ℚ) (now : String) :
    applyWeekdayUpdate m tb tot now = dictInsert m tb (mergeRow (alookup m tb) tb tot now) := by
  unfold applyWeekdayUpdate mergeRow
  cases alookup m tb <;> rfl

theorem alookup_applyWeekdayUpdate_self (m : Master) (tb : String) (tot : ℚ) (now : String) :
    alookup (applyWeekdayUpdate m tb tot now) tb =
      some (mergeRow (alookup m tb) tb tot now) := by
  rw [applyWeekdayUpdate_eq_dictInsert, alookup_dictInsert_self]

theorem alookup_applyWeekdayUpdate_ne (m : Master) (tb tb' : String) (tot : ℚ) (now : String)
    (h : tb' ≠ tb) :
    alookup (applyWeekdayUpdate m tb tot now) tb' = alookup m tb' := by
  rw [applyWeekdayUpdate_eq_dictInsert, alookup_dictInsert_ne _ _ _ _ h]

/-- A finite sequence of observations merged one at a time into bucket
`tb` of the same master (repeated `_apply_weekday_update` calls, as both
the streaming updater and the raw-row reconciler perform them). -/
def mergeValues (m : Master) (tb : String) (vals : List ℚ) (now : String) : Master :=
  vals.foldl (fun acc v => applyWeekdayUpdate acc tb v now) m

theorem foldl_min_mem [LinearOrder α] (vs : List α) :
    ∀ v : α, vs.foldl min v ∈ v :: vs := by
  induction vs with
  | nil => intro v; simp
  | cons w ws ih =>
      intro v
      simp only [List.foldl_cons]
      rcases min_choice v w with he | he <;> rw [he]
      · rcases List.mem_cons.mp (ih v) with h | h
        · simp [h]
        · simp [List.mem_cons, h]
      · rcases List.mem_cons.mp (ih w) with h | h
        · simp [h]
        · simp [List.mem_cons, h]

theorem foldl_min_le [LinearOrder α] (vs : List α) :
    ∀ v : α, ∀ x ∈ v :: vs, vs.foldl min v ≤ x := by
  induction vs with
  | nil => intro v x hx; simp at hx; simp [hx]
  | cons w ws ih =>
      intro v x hx
      simp only [List.foldl_cons]
      rcases List.mem_cons.mp hx with h | h
      · rw [h]
        exact le_trans (ih (min v w) _ (List.mem_cons_self _ _)) (min_le_left _ _)
      · rcases List.mem_cons.mp h with h | h
        · rw [h]
          exact le_trans (ih (min v w) _ (List.mem_cons_self _ _)) (min_le_right _ _)
        · exact ih (min v w) x (List.mem_cons_of_mem _ h)

theorem foldl_max_mem [LinearOrder α] (vs : List α) :
    ∀ v : α, vs.foldl max v ∈ v :: vs := by
  induction vs with
  | nil => intro v; simp
  | cons w ws ih =>
      intro v
      simp only [List.foldl_cons]
      rcases max_choice v w with he | he <;> rw [he]
      · rcases List.mem_cons.mp (ih v) with h | h
        · simp [h]
        · simp [List.mem_cons, h]
      · rcases List.mem_cons.mp (ih w) with h | h
        · simp [h]
        · simp [List.mem_cons, h]

theorem foldl_le_max [LinearOrder α] (vs : List α) :
    ∀ v : α, ∀ x ∈ v :: vs, x ≤ vs.foldl max v := by
  induction vs with
  | nil => intro v x hx; simp at hx; simp [hx]
  | cons w ws ih =>
      intro v x hx
      simp only [List.foldl_cons]
      rcases List.mem_cons.mp hx with h | h
      · rw [h]
        exact le_trans (le_max_left _ _) (ih (max v w) _ (List.mem_cons_self _ _))
      · rcases List.mem_cons.mp h with h | h
        · rw [h]
          exact le_trans (le_max_right _ _) (ih (max v w) _ (List.mem_cons_self _ _))
        · exact ih (max v w) x (List.mem_cons_of_mem _ h)

/-- Running statistics of a sequence of merges on an existing row:
`n` counts every merge, `sum` accumulates, `min`/`max` fold, and
`avg = sum / n` is maintained at every step. -/
theorem mergeValues_spec (vals : List ℚ) (m : Master) (tb now : String) (r : WeekdayRow)
    (hr : alookup m tb = some r) (havg : r.avg_tot = r.sum_tot / (r.n_tot : ℚ))
    (hn : 1 ≤ r.n_tot) :
    ∃ r', alookup (mergeValues m tb vals now) tb = some r' ∧
      r'.n_tot = r.n_tot + vals.length ∧
      r'.sum_tot = r.sum_tot + vals.sum ∧
      r'.min_tot = vals.foldl min r.min_tot ∧
      r'.max_tot = vals.foldl max r.max_tot ∧
      r'.avg_tot = r'.sum_tot / (r'.n_tot : ℚ) ∧
      1 ≤ r'.n_tot := by
  induction vals generalizing m r with
  | nil => exact ⟨r, hr, by simp, by simp, rfl, rfl, havg, hn⟩
  | cons v vs ih =>
      have hstep : alookup (applyWeekdayUpdate m tb v now) tb =
          some (mergeRow (some r) tb v now) := by
        rw [alookup_applyWeekdayUpdate_self, hr]
      have hmr : (mergeRow (some r) tb v now).avg_tot =
          (mergeRow (some r) tb v now).sum_tot / ((mergeRow (some r) tb v now).n_tot : ℚ) := by
        simp [mergeRow]
      obtain ⟨r', h1, h2, h3, h4, h5, h6, h7⟩ :=
        ih (applyWeekdayUpdate m tb v now) (mergeRow (some r) tb v now) hstep hmr
          (by simp [mergeRow])
      refine ⟨r', h1, ?_, ?_, ?_, ?_, h6, h7⟩
      · simp only [mergeRow] at h2; simp only [List.length_cons]; omega
      · simp only [mergeRow] at h3; rw [h3]; simp only [List.sum_cons]; ring
      · simpa [mergeRow] using h4
      · simpa [mergeRow] using h5

/-- Merging a nonempty sequence into an initially absent bucket:
the first merge creates the `n=1` row, the rest accumulate. -/
theorem mergeValues_empty_start (m : Master) (tb now : String) (v : ℚ) (vs : List ℚ)
    (hm : alookup m tb = none) :
    ∃ r, alookup (mergeValues m tb (v :: vs) now) tb = some r ∧
      r.n_tot = vs.length + 1 ∧ r.sum_tot = v + vs.sum ∧
      r.avg_tot = r.sum_tot / (r.n_tot : ℚ) ∧
      r.min_tot = vs.foldl min v ∧ r.max_tot = vs.foldl max v := by
  have h1 : alookup (applyWeekdayUpdate m tb v now) tb =
      some ⟨tb, 1, v, v, v, v, now⟩ := by
    rw [alookup_applyWeekdayUpdate_self, hm]; rfl
  obtain ⟨r, hr, h2, h3, h4, h5, h6, _⟩ :=
    mergeValues_spec vs (applyWeekdayUpdate m tb v now) tb now ⟨tb, 1, v, v, v, v, now⟩ h1
      (by norm_num) (le_refl 1)
  refine ⟨r, ?_, ?_, ?_, h6, ?_, ?_⟩
  · simpa [mergeValues, List.foldl_cons] using hr
  · simpa [Nat.add_comm] using h2
  · simpa using h3
  · simpa using h4
  · simpa using h5

/-- C1: `mergeObservation` semantics of `_apply_weekday_update`
(`adv_aggregator.py:91-116`, and the identical inline arithmetic of
`aggregate_day_for_key`): an absent bucket creates a row with
`n=1, sum=min=max=avg=value`; an existing bucket gets
`n+1, sum+value, min, max, avg=sum/n`, with `last_updated` stamped to
the current UTC instant; plus the 09:15/09:16 scenario on an empty
store. -/
theorem C1_mergeObservation :
    (∀ (m : Master) (tb : String) (tot : ℚ) (now : String),
      alookup m tb = none →
      alookup (applyWeekdayUpdate m tb tot now) tb =
        some ⟨tb, 1, tot, tot, tot, tot, now⟩) ∧
    (∀ (m : Master) (tb : String) (tot : ℚ) (now : String) (prev : WeekdayRow),
      alookup m tb = some prev →
      alookup (applyWeekdayUpdate m tb tot now) tb =
        some ⟨tb, prev.n_tot + 1, prev.sum_tot + tot,
          (prev.sum_tot + tot) / ((prev.n_tot : ℚ) + 1),
          min prev.min_tot tot, max prev.max_tot tot, now⟩) ∧
    (alookup (applyWeekdayUpdate (applyWeekdayUpdate (applyWeekdayUpdate [] "09:15" 100 "t1")
        "09:15" 120 "t2") "09:16" 80 "t3") "09:15" =
      some ⟨"09:15", 2, 220, 110, 100, 120, "t2"⟩) ∧
    (alookup (applyWeekdayUpdate (applyWeekdayUpdate (applyWeekdayUpdate [] "09:15" 100 "t1")
        "09:15" 120 "t2") "09:16" 80 "t3") "09:16" =
      some ⟨"09:16", 1, 80, 80, 80, 80, "t3"⟩) := by
  refine ⟨?_, ?_, ?_, ?_⟩
  · intro m tb tot now h
    rw [alookup_applyWeekdayUpdate_self, h]
    rfl
  · intro m tb tot now prev h
    rw [alookup_applyWeekdayUpdate_self, h]
    rfl
  · simp [applyWeekdayUpdate, alookup, dictInsert]
    norm_num
  · simp [applyWeekdayUpdate, alookup, dictInsert]

/-- Witness for C1: both merge branches at concrete inputs. -/
theorem C1_mergeObservation_witness :
    (alookup (applyWeekdayUpdate [] "10:00" 5 "now1") "10:00" =
      some ⟨"10:00", 1, 5, 5, 5, 5, "now1"⟩) ∧
    (alookup (applyWeekdayUpdate [("10:00", ⟨"10:00", 1, 5, 5, 5, 5, "now1"⟩)]
        "10:00" 7 "now2") "10:00" =
      some ⟨"10:00", 1 + 1, 5 + 7, (5 + 7) / (((1 : Nat) : ℚ) + 1),
        min 5 7, max 5 7, "now2"⟩) :=
  ⟨C1_mergeObservation.1 [] "10:00" 5 "now1" rfl,
   C1_mergeObservation.2.1 [("10:00", ⟨"10:00", 1, 5, 5, 5, 5, "now1"⟩)] "10:00" 7 "now2"
     ⟨"10:00", 1, 5, 5, 5, 5, "now1"⟩ rfl⟩

/-- C2: merging any nonempty sequence of values into an initially
absent bucket yields `n = length`, `sum = total`, `avg = sum/n`
(exactly, hence within the claimed `1e-6` tolerance), and `min`/`max`
equal to the extremes of the sequence; any permutation of the sequence
yields the same `n`, `sum`, `avg`, `min`, `max`. -/
theorem C2_merge_order_independent
    (m m' : Master) (tb now now' : String) (vals vals' : List ℚ)
    (hm : alookup m tb = none) (hm' : alookup m' tb = none)
    (hne : vals ≠ []) (hperm : vals.Perm vals') :
    ∃ r r', alookup (mergeValues m tb vals now) tb = some r ∧
      alookup (mergeValues m' tb vals' now') tb = some r' ∧
      r.n_tot = vals.length ∧
      r.sum_tot = vals.sum ∧
      r.avg_tot = r.sum_tot / (r.n_tot : ℚ) ∧
      |r.avg_tot - r.sum_tot / (r.n_tot : ℚ)| ≤ 1 / 1000000 ∧
      r.min_tot ∈ vals ∧ (∀ x ∈ vals, r.min_tot ≤ x) ∧
      r.max_tot ∈ vals ∧ (∀ x ∈ vals, x ≤ r.max_tot) ∧
      r'.n_tot = r.n_tot ∧ r'.sum_tot = r.sum_tot ∧ r'.avg_tot = r.avg_tot ∧
      r'.min_tot = r.min_tot ∧ r'.max_tot = r.max_tot := by
  obtain ⟨v, vs, rfl⟩ : ∃ v vs, vals = v :: vs := by
    cases vals with
    | nil => exact absurd rfl hne
    | cons v vs => exact ⟨v, vs, rfl⟩
  obtain ⟨v', vs', hv'⟩ : ∃ v' vs', vals' = v' :: vs' := by
    cases vals' with
    | nil => exact absurd hperm.length_eq (by simp)
    | cons v' vs' => exact ⟨v', vs', rfl⟩
  subst hv'
  obtain ⟨r, hr, hn, hs, ha, hmin, hmax⟩ := mergeValues_empty_start m tb now v vs hm
  obtain ⟨r', hr', hn', hs', ha', hmin', hmax'⟩ := mergeValues_empty_start m' tb now' v' vs' hm'
  have rmem : r.min_tot ∈ v :: vs := hmin ▸ foldl_min_mem vs v
  have rlb : ∀ x ∈ v :: vs, r.min_tot ≤ x := fun x hx => hmin ▸ foldl_min_le vs v x hx
  have rmemM : r.max_tot ∈ v :: vs := hmax ▸ foldl_max_mem vs v
  have rubM : ∀ x ∈ v :: vs, x ≤ r.max_tot := fun x hx => hmax ▸ foldl_le_max vs v x hx
  have rmem' : r'.min_tot ∈ v' :: vs' := hmin' ▸ foldl_min_mem vs' v'
  have rlb' : ∀ x ∈ v' :: vs', r'.min_tot ≤ x := fun x hx => hmin' ▸ foldl_min_le vs' v' x hx
  have rmemM' : r'.max_tot ∈ v' :: vs' := hmax' ▸ foldl_max_mem vs' v'
  have rubM' : ∀ x ∈ v' :: vs', x ≤ r'.max_tot := fun x hx => hmax' ▸ foldl_le_max vs' v' x hx
  have hneq : r.n_tot = (v :: vs).length := by simpa using hn
  have hseq : r.sum_tot = (v :: vs).sum := by simpa using hs
  have hneq' : r'.n_tot = (v' :: vs').length := by simpa using hn'
  have hseq' : r'.sum_tot = (v' :: vs').sum := by simpa using hs'
  have hmineq : r'.min_tot = r.min_tot :=
    le_antisymm (rlb' _ (hperm.mem_iff.mp rmem)) (rlb _ (hperm.mem_iff.mpr rmem'))
  have hmaxeq : r'.max_tot = r.max_tot :=
    le_antisymm (rubM _ (hperm.mem_iff.mpr rmemM')) (rubM' _ (hperm.mem_iff.mp rmemM))
  have hnn : r'.n_tot = r.n_tot := by rw [hneq, hneq', hperm.length_eq]
  have hss : r'.sum_tot = r.sum_tot := by rw [hseq, hseq', hperm.sum_eq]
  refine ⟨r, r', hr, hr', hneq, hseq, ha, by rw [ha]; simp, rmem, rlb, rmemM, rubM,
    hnn, hss, ?_, hmineq, hmaxeq⟩
  rw [ha, ha', hnn, hss]

/-- Witness for C2: `[100, 80]` and its permutation `[80, 100]`. -/
theorem C2_merge_order_independent_witness :
    ∃ r r', alookup (mergeValues [] "09:15" [100, 80] "t") "09:15" = some r ∧
      alookup (mergeValues [] "09:15" [80, 100] "t2") "09:15" = some r' ∧
      r.n_tot = ([100, 80] : List ℚ).length ∧
      r.sum_tot = ([100, 80] : List ℚ).sum ∧
      r.avg_tot = r.sum_tot / (r.n_tot : ℚ) ∧
      |r.avg_tot - r.sum_tot / (r.n_tot : ℚ)| ≤ 1 / 1000000 ∧
      r.min_tot ∈ ([100, 80] : List ℚ) ∧ (∀ x ∈ ([100, 80] : List ℚ), r.min_tot ≤ x) ∧
      r.max_tot ∈ ([100, 80] : List ℚ) ∧ (∀ x ∈ ([100, 80] : List ℚ), x ≤ r.max_tot) ∧
      r'.n_tot = r.n_tot ∧ r'.sum_tot = r.sum_tot ∧ r'.avg_tot = r.avg_tot ∧
      r'.min_tot = r.min_tot ∧ r'.max_tot = r.max_tot :=
  C2_merge_order_independent [] [] "09:15" "t" "t2" [100, 80] [80, 100] rfl rfl
    (by simp) (List.Perm.swap 80 100 [])

/-- Python `s.split(sep)` for a one-character separator, on the
character list of the string (structurally recursive, so concrete
inputs evaluate in the kernel). -/
def splitOnChar (c : Char) : List Char → List (List Char)
  | [] => [[]]
  | x :: xs =>
      if x = c then [] :: splitOnChar c xs
      else
        match splitOnChar c xs with
        | h :: t => (x :: h) :: t
        | [] => [[x]]

/-- Python `s.split(sep)` (single-character separator) as strings. -/
def pySplit (sep : Char) (s : String) : List String :=
  (splitOnChar sep s.data).map String.mk

def isDigitChar (c : Char) : Bool := 48 ≤ c.toNat && c.toNat ≤ 57

/-- Python `int(s)` on a plain decimal-digit string; `none` models the
`ValueError` path (empty or non-digit input). -/
def pyInt? (s : String) : Option Nat :=
  if s.data ≠ [] ∧ s.data.all isDigitChar then
    some (s.data.foldl (fun n c => 10 * n + (c.toNat - 48)) 0)
  else none

def charLower (c : Char) : Char :=
  if 65 ≤ c.toNat ∧ c.toNat ≤ 90 then Char.ofNat (c.toNat + 32) else c

def charUpper (c : Char) : Char :=
  if 97 ≤ c.toNat ∧ c.toNat ≤ 122 then Char.ofNat (c.toNat - 32) else c

/-- Python `s.lower()` (ASCII; the repository's tokens are ASCII). -/
def pyLower (s : String) : String := String.mk (s.data.map charLower)

/-- Python `s.upper()` (ASCII). -/
def pyUpper (s : String) : String := String.mk (s.data.map charUpper)

def isSpaceChar (c : Char) : Bool := c = ' ' || c = '\t' || c = '\n' || c = '\r'

/-- Python `s.strip()`. -/
def pyStrip (s : String) : String :=
  String.mk (((s.data.dropWhile isSpaceChar).reverse.dropWhile isSpaceChar).reverse)

/-- Parse `"HH:MM"` into hour/minute (`map(int, s.split(":"))`);
`none` models the `ValueError` path. -/
def parseHHMM (s : String) : Option (Nat × Nat) :=
  match pySplit ':' s with
  | [h, m] =>
      match pyInt? h, pyInt? m with
      | some hh, some mm => some (hh, mm)
      | _, _ => none
  | _ => none

/-- Lexicographic `≤` on `(hour, minute)` pairs: Python tuple
comparison `(h, m) <= (h', m')`. -/
def pairLe (a b : Nat × Nat) : Bool :=
  a.1 < b.1 || (a.1 = b.1 && a.2 ≤ b.2)

/-- `weekday_master_bulk._in_session`: compare `(h, m)` tuples, and
"be permissive if parsing fails" (returns `True`). -/
def inSessionBulk (hhmm startS endS : String) : Bool :=
  match parseHHMM startS, parseHHMM endS, parseHHMM hhmm with
  | some s, some e, some t => pairLe s t && pairLe t e
  | _, _, _ => true

/-- `weekday_master_bulk.hhmm_from_ts_ist`: the five characters after
the first `"T"` of the ISO timestamp.  The `dateutil` fallback (taken
when no `"T"` is present; an external parser that may itself raise) is
modelled as `none`. -/
def hhmm_from_ts_ist (ts : String) : Option String :=
  match splitOnChar 'T' ts.data with
  | [] => none
  | [_] => none
  | _ :: rest => some (String.mk ((List.intercalate ['T'] rest).take 5))

/-- A row of a daily per-strike source CSV as consumed by
`update_master_from_daily`: `total_premium` is `none` when the column
is absent/empty or `float()` fails; `ts_ist` is `none` when absent. -/
structure BulkRow where
  total_premium : Option ℚ
  ts_ist : Option String
  deriving Repr, DecidableEq

/-- Contents of one bulk-reconciler master file
(`weekday_master_bulk.load_master`): `HH:MM → (HIST_AVG, COUNTER,
LAST_UPDATED)`. -/
abbrev BulkMaster := List (String × (ℚ × Nat × String))

/-- Durable side effects of one reconciler invocation, in program
order. -/
inductive WriteEvent
  | writeMaster
  | recordLedger
  deriving Repr, DecidableEq

structure BulkResult where
  master : BulkMaster
  ledger : List String
  merges : Nat
  skippedByLedger : Bool
  events : List WriteEvent
  deriving Repr, DecidableEq

/-- The per-row body of `update_master_from_daily`'s loop: skip rows
with missing/bad `total_premium` or `ts_ist`, skip out-of-session
buckets, otherwise merge into the running-average row.  The second
component counts merges (the `updated` flag is `0 < count`). -/
def bulkStep (dayStr sessStart sessEnd : String) :
    BulkMaster × Nat → BulkRow → BulkMaster × Nat
  | (rows, cnt), row =>
    match row.total_premium with
    | none => (rows, cnt)
    | some tot =>
      match row.ts_ist with
      | none => (rows, cnt)
      | some ts =>
        match hhmm_from_ts_ist ts with
        | none => (rows, cnt)
        | some hhmm =>
          if inSessionBulk hhmm sessStart sessEnd then
            let newRow : ℚ × Nat × String :=
              match alookup rows hhmm with
              | some (avg, c, _lu) => ((avg * c + tot) / ((c : ℚ) + 1), c + 1, dayStr)
              | none => (tot, 1, dayStr)
            (dictInsert rows hhmm newRow, cnt + 1)
          else (rows, cnt)

/-- `weekday_master_bulk.update_master_from_daily` on one master file:
ledger gate, per-row merging, and (only when at least one row merged)
the atomic write followed by the ledger append. -/
def update_master_from_daily (useLedger : Bool) (ledger : List String) (master : BulkMaster)
    (daily : List BulkRow) (dayStr sessStart sessEnd : String) : BulkResult :=
  if useLedger && ledger.contains dayStr then
    { master := master, ledger := ledger, merges := 0, skippedByLedger := true, events := [] }
  else
    let res := daily.foldl (bulkStep dayStr sessStart sessEnd) (master, 0)
    if 0 < res.2 then
      { master := res.1
        ledger := if useLedger then ledger ++ [dayStr] else ledger
        merges := res.2
        skippedByLedger := false
        events := [WriteEvent.writeMaster] ++
          (if useLedger then [WriteEvent.recordLedger] else []) }
    else
      { master := master, ledger := ledger, merges := 0, skippedByLedger := false, events := [] }

/-- The (bucket, total) a bulk daily row contributes, or `none` when
the row is skipped (missing/bad premium or timestamp, or out of
session). -/
def bulkRowKey (s e : String) (row : BulkRow) : Option (String × ℚ) :=
  match row.total_premium with
  | none => none
  | some tot =>
      match row.ts_ist with
      | none => none
      | some ts =>
          match hhmm_from_ts_ist ts with
          | none => none
          | some hhmm => if inSessionBulk hhmm s e then some (hhmm, tot) else none

/-- The running-average row update of `update_master_from_daily`. -/
def bulkMergeRow (prev : Option (ℚ × Nat × String)) (tot : ℚ) (dayStr : String) :
    ℚ × Nat × String :=
  match prev with
  | some (avg, c, _lu) => ((avg * c + tot) / ((c : ℚ) + 1), c + 1, dayStr)
  | none => (tot, 1, dayStr)

theorem bulkStep_eq (dayStr s e : String) (rows : BulkMaster) (cnt : Nat) (row : BulkRow) :
    bulkStep dayStr s e (rows, cnt) row =
      match bulkRowKey s e row with
      | none => (rows, cnt)
      | some (hhmm, tot) =>
          (dictInsert rows hhmm (bulkMergeRow (alookup rows hhmm) tot dayStr), cnt + 1) := by
  obtain ⟨tp, tsi⟩ := row
  cases tp with
  | none => rfl
  | some tot =>
      cases tsi with
      | none => rfl
      | some ts =>
          cases h : hhmm_from_ts_ist ts with
          | none => simp [bulkStep, bulkRowKey, h]
          | some hhmm =>
              by_cases hs : inSessionBulk hhmm s e <;>
                simp [bulkStep, bulkRowKey, bulkMergeRow, h, hs]

theorem bulkFold_count_mono (dayStr s e : String) (l : List BulkRow) :
    ∀ p : BulkMaster × Nat, p.2 ≤ (l.foldl (bulkStep dayStr s e) p).2 := by
  induction l with
  | nil => intro p; exact le_refl _
  | cons q qs ihq =>
      intro p
      obtain ⟨pm, pc⟩ := p
      refine le_trans ?_ (ihq (bulkStep dayStr s e (pm, pc) q))
      rw [bulkStep_eq]
      cases hk : bulkRowKey s e q with
      | none => simp
      | some kv => obtain ⟨hh, t⟩ := kv; simp

theorem bulkFold_merges_zero_master_eq (daily : List BulkRow) (dayStr s e : String) :
    ∀ (m : BulkMaster) (c : Nat),
      (daily.foldl (bulkStep dayStr s e) (m, c)).2 = c →
      (daily.foldl (bulkStep dayStr s e) (m, c)).1 = m := by
  induction daily with
  | nil => intro m c _; rfl
  | cons row rest ih =>
      intro m c hc
      rw [List.foldl_cons] at hc ⊢
      have hstep : bulkStep dayStr s e (m, c) row = (m, c) := by
        rw [bulkStep_eq]
        cases hk : bulkRowKey s e row with
        | none => rfl
        | some kv =>
            obtain ⟨hh, t⟩ := kv
            exfalso
            have hmono := bulkFold_count_mono dayStr s e rest (bulkStep dayStr s e (m, c) row)
            rw [bulkStep_eq, hk] at hmono hc
            simp at hmono hc
            omega
      rw [hstep] at hc ⊢
      exact ih m c hc

theorem umfd_skip (useLedger : Bool) (ledger : List String) (master : BulkMaster)
    (daily : List BulkRow) (dayStr s e : String)
    (hL : (useLedger && ledger.contains dayStr) = true) :
    update_master_from_daily useLedger ledger master daily dayStr s e =
      ⟨master, ledger, 0, true, []⟩ := by
  unfold update_master_from_daily
  rw [if_pos hL]

theorem umfd_updated (useLedger : Bool) (ledger : List String) (master : BulkMaster)
    (daily : List BulkRow) (dayStr s e : String)
    (hL : (useLedger && ledger.contains dayStr) = false)
    (hres : 0 < (daily.foldl (bulkStep dayStr s e) (master, 0)).2) :
    update_master_from_daily useLedger ledger master daily dayStr s e =
      ⟨(daily.foldl (bulkStep dayStr s e) (master, 0)).1,
        if useLedger then ledger ++ [dayStr] else ledger,
        (daily.foldl (bulkStep dayStr s e) (master, 0)).2, false,
        [WriteEvent.writeMaster] ++ (if useLedger then [WriteEvent.recordLedger] else [])⟩ := by
  unfold update_master_from_daily
  rw [if_neg (by rw [hL]; simp), if_pos hres]

theorem umfd_nochange (useLedger : Bool) (ledger : List String) (master : BulkMaster)
    (daily : List BulkRow) (dayStr s e : String)
    (hL : (useLedger && ledger.contains dayStr) = false)
    (hres : ¬ 0 < (daily.foldl (bulkStep dayStr s e) (master, 0)).2) :
    update_master_from_daily useLedger ledger master daily dayStr s e =
      ⟨master, ledger, 0, false, []⟩ := by
  unfold update_master_from_daily
  rw [if_neg (by rw [hL]; simp), if_neg hres]

/-- C3 (amended): a second, ledger-gated bulk-reconciler run for the
same date over unchanged source data performs zero merges and leaves
the master identical to its state after the first run; if the first
run merged at least one row, the second run is skipped via the ledger;
and a run whose ledger already contains the date is a strict no-op with
zero merges. -/
theorem C3_bulk_rerun_noop (ledger : List String) (master : BulkMaster)
    (daily : List BulkRow) (dayStr s e : String) :
    (update_master_from_daily true
        (update_master_from_daily true ledger master daily dayStr s e).ledger
        (update_master_from_daily true ledger master daily dayStr s e).master
        daily dayStr s e).merges = 0 ∧
    (update_master_from_daily true
        (update_master_from_daily true ledger master daily dayStr s e).ledger
        (update_master_from_daily true ledger master daily dayStr s e).master
        daily dayStr s e).master =
      (update_master_from_daily true ledger master daily dayStr s e).master ∧
    (0 < (update_master_from_daily true ledger master daily dayStr s e).merges →
      (update_master_from_daily true
        (update_master_from_daily true ledger master daily dayStr s e).ledger
        (update_master_from_daily true ledger master daily dayStr s e).master
        daily dayStr s e).skippedByLedger = true) ∧
    (ledger.contains dayStr = true →
      (update_master_from_daily true ledger master daily dayStr s e).merges = 0 ∧
      (update_master_from_daily true ledger master daily dayStr s e).skippedByLedger = true ∧
      (update_master_from_daily true ledger master daily dayStr s e).master = master) := by
  by_cases hL : ledger.contains dayStr = true
  · have h1 := umfd_skip true ledger master daily dayStr s e
      (by simp only [Bool.true_and]; exact hL)
    rw [h1]
    have h2 := umfd_skip true ledger master daily dayStr s e
      (by simp only [Bool.true_and]; exact hL)
    refine ⟨?_, ?_, ?_, ?_⟩ <;> simp [h2, h1]
  · have hL' : ledger.contains dayStr = false := by
      cases h : ledger.contains dayStr
      · rfl
      · exact absurd h hL
    by_cases hres : 0 < (daily.foldl (bulkStep dayStr s e) (master, 0)).2
    · have h1 := umfd_updated true ledger master daily dayStr s e
        (by simp only [Bool.true_and]; exact hL') hres
      rw [h1]
      have h2 := umfd_skip true (ledger ++ [dayStr])
        (daily.foldl (bulkStep dayStr s e) (master, 0)).1 daily dayStr s e
        (by simp only [Bool.true_and]; simp)
      simp only [if_pos rfl] at h1 ⊢
      refine ⟨?_, ?_, ?_, ?_⟩
      · simp [h2]
      · simp [h2]
      · intro _; simp [h2]
      · intro hc; exact absurd hc hL
    · have h1 := umfd_nochange true ledger master daily dayStr s e
        (by simp only [Bool.true_and]; exact hL') hres
      rw [h1]
      have h2 := umfd_nochange true ledger master daily dayStr s e
        (by simp only [Bool.true_and]; exact hL') hres
      refine ⟨?_, ?_, ?_, ?_⟩
      · simp [h2]
      · simp [h2]
      · intro h0; simp at h0
      · intro hc; exact absurd hc hL

/-- C3 counterexample to the claim as stated: with unchanged source
data whose rows all fail to parse (so the first run merges nothing and
records no ledger entry), the second bulk-reconciler run is **not**
skipped via the ledger (`skippedByLedger = false`), contradicting
"every candidate file is skipped because the ledger already contains
the date" — even though it still performs zero merges. -/
theorem C3_claim_counterexample :
    (update_master_from_daily true
        (update_master_from_daily true [] [] [⟨none, none⟩] "2025-08-18" "09:15" "15:30").ledger
        (update_master_from_daily true [] [] [⟨none, none⟩] "2025-08-18" "09:15" "15:30").master
        [⟨none, none⟩] "2025-08-18" "09:15" "15:30").skippedByLedger = false ∧
    (update_master_from_daily true
        (update_master_from_daily true [] [] [⟨none, none⟩] "2025-08-18" "09:15" "15:30").ledger
        (update_master_from_daily true [] [] [⟨none, none⟩] "2025-08-18" "09:15" "15:30").master
        [⟨none, none⟩] "2025-08-18" "09:15" "15:30").merges = 0 := by
  constructor <;> rfl

/-- Witness for C3: the ledger-contains no-op branch at a concrete
state, and the second-run skip after a first run that merged one row. -/
theorem C3_bulk_rerun_noop_witness :
    ((update_master_from_daily true ["2025-08-18"] [] [⟨none, none⟩]
        "2025-08-18" "09:15" "15:30").merges = 0 ∧
     (update_master_from_daily true ["2025-08-18"] [] [⟨none, none⟩]
        "2025-08-18" "09:15" "15:30").skippedByLedger = true ∧
     (update_master_from_daily true ["2025-08-18"] [] [⟨none, none⟩]
        "2025-08-18" "09:15" "15:30").master = []) ∧
    (update_master_from_daily true
        (update_master_from_daily true [] []
          [⟨some 100, some "2025-08-18T09:30:00+05:30"⟩] "2025-08-18" "09:15" "15:30").ledger
        (update_master_from_daily true [] []
          [⟨some 100, some "2025-08-18T09:30:00+05:30"⟩] "2025-08-18" "09:15" "15:30").master
        [⟨some 100, some "2025-08-18T09:30:00+05:30"⟩]
        "2025-08-18" "09:15" "15:30").skippedByLedger = true :=
  ⟨(C3_bulk_rerun_noop ["2025-08-18"] [] [⟨none, none⟩] "2025-08-18" "09:15" "15:30").2.2.2
      (by rfl),
   (C3_bulk_rerun_noop [] [] [⟨some 100, some "2025-08-18T09:30:00+05:30"⟩]
      "2025-08-18" "09:15" "15:30").2.2.1 (by decide)⟩

/-- The IST local time produced by `adv_aggregator.to_ist`, as consumed
downstream (`pytz`/`dateutil` are external collaborators, so the
conversion itself is a parameter of the reconciliation model). -/
structure ISTTime where
  hour : Nat
  minute : Nat
  second : Nat
  deriving Repr, DecidableEq

/-- Lexicographic `≤` on `(h, m, s)` triples: Python `datetime.time`
comparison (`dt.time(sh, sm)` has zero seconds). -/
def timeLe (a b : Nat × Nat × Nat) : Bool :=
  a.1 < b.1 || (a.1 = b.1 && (a.2.1 < b.2.1 || (a.2.1 = b.2.1 && a.2.2 ≤ b.2.2)))

/-- `adv_aggregator.in_session_ist`:
`time(sh, sm) <= t <= time(eh, em)`.  `_parse_hhmm` raises on malformed
session configuration (the fail-fast configuration-error path),
modelled as `none`. -/
def in_session_ist (t : ISTTime) (startS endS : String) : Option Bool :=
  match parseHHMM startS, parseHHMM endS with
  | some (sh, sm), some (eh, em) =>
      some (timeLe (sh, sm, 0) (t.hour, t.minute, t.second) &&
        timeLe (t.hour, t.minute, t.second) (eh, em, 0))
  | _, _ => none

def digitChar (n : Nat) : Char := Char.ofNat (48 + n)

/-- Python `f"{n:02d}"` for `n ≤ 99` (hours/minutes). -/
def two (n : Nat) : String := String.mk [digitChar ((n / 10) % 10), digitChar (n % 10)]

/-- `adv_aggregator.hhmm_from_ist`: `f"{h:02d}:{m:02d}"`. -/
def hhmm_from_ist (t : ISTTime) : String := two t.hour ++ ":" ++ two t.minute

/-- `adv_aggregator.normalize_offset_name`. -/
def normalize_offset_name (off : String) : String :=
  let s := pyLower (pyStrip off)
  if s = "atm_m2" ∨ s = "atm_m1" ∨ s = "atm" ∨ s = "atm_p1" ∨ s = "atm_p2" ∨
      s = "atm_p1m1" ∨ s = "atm_p2m2" then s
  else if s = "m2" then "atm_m2"
  else if s = "m1" then "atm_m1"
  else if s = "p1" then "atm_p1"
  else if s = "p2" then "atm_p2"
  else s

/-- `adv_aggregator.AggregationKey`. -/
structure AggregationKey where
  index : String
  expiry_code : String
  strike_offset : String
  weekday : String
  deriving Repr, DecidableEq

/-- A raw per-leg record as consumed by `aggregate_day_for_key`:
`ce_ltp`/`pe_ltp` are `none` when the field is falsy or `float()`
fails, `ts` is `none` when absent. -/
structure LegRow where
  index : String
  expiry_code : String
  strike_offset : String
  ce_ltp : Option ℚ
  pe_ltp : Option ℚ
  ts : Option String
  deriving Repr, DecidableEq

/-- The per-row body of `aggregate_day_for_key`'s loop: key filters,
leg-price extraction, timestamp/session filtering, then the same merge
arithmetic as `_apply_weekday_update` on the in-memory map.  The second
component counts merged rows. -/
def aggStep (key : AggregationKey) (toIST : String → Option ISTTime)
    (startS endS now : String) : Master × Nat → LegRow → Master × Nat
  | (acc, cnt), row =>
    if pyUpper (pyStrip row.index) ≠ pyUpper key.index then (acc, cnt)
    else if pyLower (pyStrip row.expiry_code) ≠ pyLower key.expiry_code then (acc, cnt)
    else if normalize_offset_name row.strike_offset ≠ key.strike_offset then (acc, cnt)
    else
      match row.ce_ltp, row.pe_ltp with
      | some ce, some pe =>
          match row.ts with
          | none => (acc, cnt)
          | some ts =>
              match toIST ts with
              | none => (acc, cnt)
              | some t =>
                  if in_session_ist t startS endS = some true then
                    (applyWeekdayUpdate acc (hhmm_from_ist t) (ce + pe) now, cnt + 1)
                  else (acc, cnt)
      | _, _ => (acc, cnt)

structure AggResult where
  master : Master
  ledger : List String
  merges : Nat
  skipReported : Bool
  events : List WriteEvent
  deriving Repr, DecidableEq

/-- `adv_aggregator.aggregate_day_for_key`: ledger gate (only when a
`date_str` is supplied), row loop, then — unless `dry_run` — the master
write followed by the ledger append (again only with a `date_str`).
The `master` field is the persisted state after the call. -/
def aggregate_day_for_key (key : AggregationKey) (toIST : String → Option ISTTime)
    (startS endS now : String) (ledger : List String) (master : Master)
    (rows : List LegRow) (dateStr : Option String) (dryRun : Bool) : AggResult :=
  if (match dateStr with | some d => ledger.contains d | none => false) then
    { master := master, ledger := ledger, merges := 0, skipReported := true, events := [] }
  else
    let res := rows.foldl (aggStep key toIST startS endS now) (master, 0)
    if dryRun then
      { master := master, ledger := ledger, merges := res.2, skipReported := false, events := [] }
    else
      { master := res.1
        ledger := match dateStr with | some d => ledger ++ [d] | none => ledger
        merges := res.2
        skipReported := false
        events := [WriteEvent.writeMaster] ++
          (match dateStr with | some _ => [WriteEvent.recordLedger] | none => []) }

theorem agg_eq_skip (key : AggregationKey) (toIST : String → Option ISTTime)
    (startS endS now : String) (ledger : List String) (master : Master)
    (rows : List LegRow) (d : String) (dryRun : Bool)
    (hL : ledger.contains d = true) :
    aggregate_day_for_key key toIST startS endS now ledger master rows (some d) dryRun =
      ⟨master, ledger, 0, true, []⟩ := by
  unfold aggregate_day_for_key
  rw [if_pos hL]

theorem agg_eq_write (key : AggregationKey) (toIST : String → Option ISTTime)
    (startS endS now : String) (ledger : List String) (master : Master)
    (rows : List LegRow) (d : String)
    (hL : ledger.contains d = false) :
    aggregate_day_for_key key toIST startS endS now ledger master rows (some d) false =
      ⟨(rows.foldl (aggStep key toIST startS endS now) (master, 0)).1, ledger ++ [d],
        (rows.foldl (aggStep key toIST startS endS now) (master, 0)).2, false,
        [WriteEvent.writeMaster, WriteEvent.recordLedger]⟩ := by
  unfold aggregate_day_for_key
  rw [if_neg (show ¬(ledger.contains d = true) by rw [hL]; simp)]
  rfl

/-- The event sequences a reconciler invocation may emit: the ledger
record, when present, strictly follows the master write. -/
def recordAfterWrite (evs : List WriteEvent) : Prop :=
  evs = [] ∨ evs = [WriteEvent.writeMaster] ∨
    evs = [WriteEvent.writeMaster, WriteEvent.recordLedger]

theorem umfd_rerun_merges_zero (ledger : List String) (master : BulkMaster)
    (daily : List BulkRow) (dayStr s e : String) :
    (update_master_from_daily true
        (update_master_from_daily true ledger master daily dayStr s e).ledger
        (update_master_from_daily true ledger master daily dayStr s e).master
        daily dayStr s e).merges = 0 := by
  by_cases hL : ledger.contains dayStr = true
  · have h1 := umfd_skip true ledger master daily dayStr s e
      (by simp only [Bool.true_and]; exact hL)
    rw [h1]
    have h2 := umfd_skip true ledger master daily dayStr s e
      (by simp only [Bool.true_and]; exact hL)
    simp [h2]
  · have hL' : ledger.contains dayStr = false := by
      cases h : ledger.contains dayStr
      · rfl
      · exact absurd h hL
    by_cases hres : 0 < (daily.foldl (bulkStep dayStr s e) (master, 0)).2
    · have h1 := umfd_updated true ledger master daily dayStr s e
        (by simp only [Bool.true_and]; exact hL') hres
      rw [h1]
      have h2 := umfd_skip true (ledger ++ [dayStr])
        (daily.foldl (bulkStep dayStr s e) (master, 0)).1 daily dayStr s e
        (by simp only [Bool.true_and]; simp)
      simp only [if_pos rfl]
      simp [h2]
    · have h1 := umfd_nochange true ledger master daily dayStr s e
        (by simp only [Bool.true_and]; exact hL') hres
      rw [h1]
      have h2 := umfd_nochange true ledger master daily dayStr s e
        (by simp only [Bool.true_and]; exact hL') hres
      simp [h2]

/-- C4: both end-of-day entry points check their ledger and skip when
the date is present; the event trace of either entry point records the
ledger only strictly after the master write (so no ledger entry without
a completed write); the pre-split bulk entry point records only when at
least one row merged; and re-running either entry point for the same
`(file, date)` performs zero merges the second time. -/
theorem C4_ledger_gate_both_entry_points :
    (∀ (key : AggregationKey) (toIST : String → Option ISTTime)
        (startS endS now : String) (ledger : List String) (master : Master)
        (rows : List LegRow) (d : String) (dryRun : Bool),
      ledger.contains d = true →
      aggregate_day_for_key key toIST startS endS now ledger master rows (some d) dryRun =
        ⟨master, ledger, 0, true, []⟩) ∧
    (∀ (ledger : List String) (master : BulkMaster) (daily : List BulkRow) (dayStr s e : String),
      ledger.contains dayStr = true →
      update_master_from_daily true ledger master daily dayStr s e =
        ⟨master, ledger, 0, true, []⟩) ∧
    (∀ (key : AggregationKey) (toIST : String → Option ISTTime)
        (startS endS now : String) (ledger : List String) (master : Master)
        (rows : List LegRow) (dateStr : Option String) (dryRun : Bool),
      recordAfterWrite
        (aggregate_day_for_key key toIST startS endS now ledger master rows dateStr dryRun).events) ∧
    (∀ (useLedger : Bool) (ledger : List String) (master : BulkMaster)
        (daily : List BulkRow) (dayStr s e : String),
      recordAfterWrite (update_master_from_daily useLedger ledger master daily dayStr s e).events ∧
      (WriteEvent.recordLedger ∈
          (update_master_from_daily useLedger ledger master daily dayStr s e).events →
        0 < (update_master_from_daily useLedger ledger master daily dayStr s e).merges)) ∧
    (∀ (key : AggregationKey) (toIST : String → Option ISTTime)
        (startS endS now now2 : String) (ledger : List String) (master : Master)
        (rows : List LegRow) (d : String),
      (aggregate_day_for_key key toIST startS endS now2
        (aggregate_day_for_key key toIST startS endS now ledger master rows (some d) false).ledger
        (aggregate_day_for_key key toIST startS endS now ledger master rows (some d) false).master
        rows (some d) false).merges = 0) ∧
    (∀ (ledger : List String) (master : BulkMaster) (daily : List BulkRow) (dayStr s e : String),
      (update_master_from_daily true
        (update_master_from_daily true ledger master daily dayStr s e).ledger
        (update_master_from_daily true ledger master daily dayStr s e).master
        daily dayStr s e).merges = 0) := by
  refine ⟨?_, ?_, ?_, ?_, ?_, ?_⟩
  · intro key toIST startS endS now ledger master rows d dryRun hL
    exact agg_eq_skip key toIST startS endS now ledger master rows d dryRun hL
  · intro ledger master daily dayStr s e hL
    exact umfd_skip true ledger master daily dayStr s e (by simp only [Bool.true_and]; exact hL)
  · intro key toIST startS endS now ledger master rows dateStr dryRun
    unfold aggregate_day_for_key recordAfterWrite
    by_cases hg : (match dateStr with | some d => ledger.contains d | none => false) = true
    · rw [if_pos hg]; left; rfl
    · rw [if_neg hg]
      by_cases hd : dryRun = true
      · simp only [hd, if_pos rfl]; left; rfl
      · have hd' : dryRun = false := by cases dryRun; rfl; exact absurd rfl hd
        simp only [hd', Bool.false_eq_true, if_false]
        cases dateStr with
        | none => right; left; rfl
        | some d => right; right; rfl
  · intro useLedger ledger master daily dayStr s e
    by_cases hL : (useLedger && ledger.contains dayStr) = true
    · have h1 := umfd_skip useLedger ledger master daily dayStr s e hL
      rw [h1]
      exact ⟨Or.inl rfl, by intro h; simp at h⟩
    · have hL' : (useLedger && ledger.contains dayStr) = false := by
        cases h : (useLedger && ledger.contains dayStr)
        · rfl
        · exact absurd h hL
      by_cases hres : 0 < (daily.foldl (bulkStep dayStr s e) (master, 0)).2
      · have h1 := umfd_updated useLedger ledger master daily dayStr s e hL' hres
        rw [h1]
        cases useLedger with
        | false => exact ⟨Or.inr (Or.inl rfl), by intro h; simp at h⟩
        | true => exact ⟨Or.inr (Or.inr rfl), fun _ => hres⟩
      · have h1 := umfd_nochange useLedger ledger master daily dayStr s e hL' hres
        rw [h1]
        exact ⟨Or.inl rfl, by intro h; simp at h⟩
  · intro key toIST startS endS now now2 ledger master rows d
    by_cases hL : ledger.contains d = true
    · have h1 := agg_eq_skip key toIST startS endS now ledger master rows d false hL
      rw [h1]
      have h2 := agg_eq_skip key toIST startS endS now2 ledger master rows d false hL
      simp [h2]
    · have hL' : ledger.contains d = false := by
        cases h : ledger.contains d
        · rfl
        · exact absurd h hL
      have h1 := agg_eq_write key toIST startS endS now ledger master rows d hL'
      rw [h1]
      have h2 := agg_eq_skip key toIST startS endS now2 (ledger ++ [d])
        (rows.foldl (aggStep key toIST startS endS now) (master, 0)).1 rows d false (by simp)
      simp [h2]
  · exact umfd_rerun_merges_zero

/-- Witness for C4: the hypothesis-bearing conjuncts at concrete
inputs: a ledger already holding the date for both entry points, and
the record-implies-merged implication on a bulk run that merged one
row. -/
theorem C4_ledger_gate_both_entry_points_witness :
    (aggregate_day_for_key ⟨"NIFTY 50", "this_week", "atm", "mon"⟩ (fun _ => none)
        "09:15" "15:30" "now" ["2025-08-18"] [] [] (some "2025-08-18") false =
      ⟨[], ["2025-08-18"], 0, true, []⟩) ∧
    (update_master_from_daily true ["2025-08-18"] [] [] "2025-08-18" "09:15" "15:30" =
      ⟨[], ["2025-08-18"], 0, true, []⟩) ∧
    (0 < (update_master_from_daily true [] []
        [⟨some 100, some "2025-08-18T09:30:00+05:30"⟩] "2025-08-18" "09:15" "15:30").merges) :=
  ⟨C4_ledger_gate_both_entry_points.1 ⟨"NIFTY 50", "this_week", "atm", "mon"⟩ (fun _ => none)
      "09:15" "15:30" "now" ["2025-08-18"] [] [] "2025-08-18" false (by decide),
   C4_ledger_gate_both_entry_points.2.1 ["2025-08-18"] [] [] "2025-08-18" "09:15" "15:30"
      (by decide),
   (C4_ledger_gate_both_entry_points.2.2.2.1 true [] []
      [⟨some 100, some "2025-08-18T09:30:00+05:30"⟩] "2025-08-18" "09:15" "15:30").2
      (by decide)⟩

/-- Outcome of one durable master write as observed by the caller:
whether the call completed (vs. propagated an exception), whether the
non-atomic direct overwrite was used, how many `os.replace` attempts
were made, the back-off sleeps performed (seconds, in order), and
whether the temporary file is gone afterwards. -/
structure WriteOutcome where
  completed : Bool
  usedFallback : Bool
  renameAttempts : Nat
  sleeps : List ℚ
  tmpRemoved : Bool
  deriving Repr, DecidableEq

/-- The `for attempt in range(5)` retry loop of
`adv_io.write_weekday_master`: return the first attempt index whose
`os.replace` does not raise `PermissionError`, `none` when all fail.
`renameFails k` is the oracle for transient contention on the `k`-th
attempt. -/
def renameLoop (renameFails : Nat → Bool) : List Nat → Option Nat
  | [] => none
  | a :: rest => if renameFails a then renameLoop renameFails rest else some a

/-- The back-off slept after a failed attempt `i`:
`time.sleep(0.2 + 0.2 * attempt)`. -/
def backoffAt (i : Nat) : ℚ := 1 / 5 + 1 / 5 * (i : ℚ)

/-- `adv_io.write_weekday_master` with `atomic=True`: temp file in the
target directory, up to five `os.replace` attempts with back-off after
each `PermissionError`, direct non-atomic overwrite once retries are
exhausted, and the `finally` block removing a still-existing temp file
(on a successful rename the temp file is already gone). -/
def write_weekday_master_atomic (renameFails : Nat → Bool) : WriteOutcome :=
  match renameLoop renameFails (List.range 5) with
  | some k =>
      { completed := true, usedFallback := false, renameAttempts := k + 1
        sleeps := (List.range k).map backoffAt, tmpRemoved := true }
  | none =>
      { completed := true, usedFallback := true, renameAttempts := 5
        sleeps := (List.range 5).map backoffAt, tmpRemoved := true }

/-- `weekday_master_bulk.write_master_atomic`: a single `os.replace`
with no retry, no fallback and no cleanup handler — a rename failure
propagates to the caller and leaves the temp file behind. -/
def write_master_atomic_bulk (renameFails : Nat → Bool) : WriteOutcome :=
  if renameFails 0 then
    { completed := false, usedFallback := false, renameAttempts := 1
      sleeps := [], tmpRemoved := false }
  else
    { completed := true, usedFallback := false, renameAttempts := 1
      sleeps := [], tmpRemoved := true }

theorem renameLoop_none_iff (f : Nat → Bool) (l : List Nat) :
    renameLoop f l = none ↔ ∀ a ∈ l, f a = true := by
  induction l with
  | nil => simp [renameLoop]
  | cons a rest ih =>
      by_cases h : f a
      · simp [renameLoop, h, ih]
      · simp [renameLoop, h]

theorem renameLoop_mem (f : Nat → Bool) (l : List Nat) (k : Nat)
    (h : renameLoop f l = some k) : k ∈ l := by
  induction l with
  | nil => simp [renameLoop] at h
  | cons a rest ih =>
      unfold renameLoop at h
      by_cases hf : f a
      · rw [if_pos hf] at h
        exact List.mem_cons_of_mem _ (ih h)
      · rw [if_neg hf, Option.some.injEq] at h
        rw [← h]
        exact List.mem_cons_self _ _

theorem backoff_chain (k : Nat) :
    List.Chain' (· < ·) ((List.range k).map backoffAt) := by
  apply List.Pairwise.chain'
  apply List.Pairwise.map
  · intro a b hab
    have : (a : ℚ) < (b : ℚ) := by exact_mod_cast hab
    unfold backoffAt
    nlinarith
  · exact List.pairwise_lt_range k

/-- C5 (amended): the advanced writer (`adv_io.write_weekday_master`,
`atomic=True`) always completes, removes its temp file on every path,
makes at most five rename attempts, sleeps strictly increasing
back-offs between them, and falls back to the direct overwrite exactly
when all five attempts hit transient failures; the bulk-reconciler
writer (`weekday_master_bulk.write_master_atomic`) instead performs a
single rename with no retry, no fallback and no cleanup: it aborts the
caller and leaves its temp file exactly when that rename fails. -/
theorem C5_atomic_write_protocol (renameFails : Nat → Bool) :
    (write_weekday_master_atomic renameFails).completed = true ∧
    (write_weekday_master_atomic renameFails).tmpRemoved = true ∧
    (write_weekday_master_atomic renameFails).renameAttempts ≤ 5 ∧
    List.Chain' (· < ·) (write_weekday_master_atomic renameFails).sleeps ∧
    ((write_weekday_master_atomic renameFails).usedFallback = true ↔
      ∀ k < 5, renameFails k = true) ∧
    (write_master_atomic_bulk renameFails).renameAttempts = 1 ∧
    (write_master_atomic_bulk renameFails).usedFallback = false ∧
    (write_master_atomic_bulk renameFails).sleeps = [] ∧
    ((write_master_atomic_bulk renameFails).completed = false ↔ renameFails 0 = true) ∧
    ((write_master_atomic_bulk renameFails).tmpRemoved = false ↔ renameFails 0 = true) := by
  have hbulk : (write_master_atomic_bulk renameFails).renameAttempts = 1 ∧
      (write_master_atomic_bulk renameFails).usedFallback = false ∧
      (write_master_atomic_bulk renameFails).sleeps = [] ∧
      ((write_master_atomic_bulk renameFails).completed = false ↔ renameFails 0 = true) ∧
      ((write_master_atomic_bulk renameFails).tmpRemoved = false ↔ renameFails 0 = true) := by
    unfold write_master_atomic_bulk
    by_cases h : renameFails 0 <;> simp [h]
  cases hloop : renameLoop renameFails (List.range 5) with
  | some k =>
      have hk : k < 5 := List.mem_range.mp (renameLoop_mem renameFails (List.range 5) k hloop)
      unfold write_weekday_master_atomic
      rw [hloop]
      refine ⟨rfl, rfl, by show k + 1 ≤ 5; omega, backoff_chain k, ?_, hbulk.1, hbulk.2.1,
        hbulk.2.2.1, hbulk.2.2.2.1, hbulk.2.2.2.2⟩
      constructor
      · intro h; exact absurd h (by simp)
      · intro hall
        exfalso
        have := (renameLoop_none_iff renameFails (List.range 5)).mpr
          (by intro a ha; exact hall a (List.mem_range.mp ha))
        rw [hloop] at this
        exact Option.some_ne_none k this
  | none =>
      unfold write_weekday_master_atomic
      rw [hloop]
      refine ⟨rfl, rfl, le_refl 5, backoff_chain 5, ?_, hbulk.1, hbulk.2.1, hbulk.2.2.1,
        hbulk.2.2.2.1, hbulk.2.2.2.2⟩
      constructor
      · intro _ k hk
        exact (renameLoop_none_iff renameFails (List.range 5)).mp hloop k (List.mem_range.mpr hk)
      · intro _; rfl

/-- C5 counterexample to the claim as stated: under persistent rename
contention the bulk writer `write_master_atomic` does **not** retry,
does **not** fall back to a direct overwrite (the caller aborts), and
does **not** remove its temporary file — contradicting "every durable
write ... is retried ... falls back ... the temporary file is removed
on both the success and the failure path". -/
theorem C5_claim_counterexample :
    (write_master_atomic_bulk (fun _ => true)).completed = false ∧
    (write_master_atomic_bulk (fun _ => true)).tmpRemoved = false ∧
    (write_master_atomic_bulk (fun _ => true)).renameAttempts = 1 ∧
    (write_master_atomic_bulk (fun _ => true)).usedFallback = false := by
  refine ⟨rfl, rfl, rfl, rfl⟩

/-- Witness for C5: the writers under permanent rename contention. -/
theorem C5_atomic_write_protocol_witness :
    (write_weekday_master_atomic (fun _ => true)).completed = true ∧
    (write_weekday_master_atomic (fun _ => true)).usedFallback = true ∧
    (write_master_atomic_bulk (fun _ => true)).completed = false :=
  ⟨(C5_atomic_write_protocol (fun _ => true)).1,
   (C5_atomic_write_protocol (fun _ => true)).2.2.2.2.1.mpr (fun _ _ => rfl),
   (C5_atomic_write_protocol (fun _ => true)).2.2.2.2.2.2.2.2.1.mpr rfl⟩

/-- Keys of the per-offset minute-total dict built by
`_build_totals_split_for_index_day`: `(expiry_code, strike_offset,
time_bucket)`. -/
abbrev K3 := String × String × String

/-- A per-offset minute-total dict (`Dict[Tuple[str,str,str], float]`). -/
abbrev KMap := List (K3 × ℚ)

theorem alookup_append [DecidableEq α] (l1 l2 : List (α × β)) (k : α) :
    alookup (l1 ++ l2) k =
      match alookup l1 k with
      | some v => some v
      | none => alookup l2 k := by
  induction l1 with
  | nil => rfl
  | cons hd tl ih =>
      obtain ⟨k0, v0⟩ := hd
      by_cases h : k = k0
      · simp [alookup, h]
      · simp [alookup, h, ih]

theorem alookup_cons_self [DecidableEq α] (k0 : α) (v0 : β) (tl : List (α × β)) :
    alookup ((k0, v0) :: tl) k0 = some v0 := by
  simp [alookup]

theorem alookup_cons_ne [DecidableEq α] (k0 k : α) (v0 : β) (tl : List (α × β))
    (h : ¬ k = k0) : alookup ((k0, v0) :: tl) k = alookup tl k := by
  simp [alookup, h]

theorem dictInsert_cons_self [DecidableEq α] (k0 : α) (v0 v : β) (tl : List (α × β)) :
    dictInsert ((k0, v0) :: tl) k0 v = (k0, v) :: tl := by
  simp [dictInsert]

theorem dictInsert_cons_ne [DecidableEq α] (k0 k : α) (v0 v : β) (tl : List (α × β))
    (h : ¬ k0 = k) :
    dictInsert ((k0, v0) :: tl) k v = (k0, v0) :: dictInsert tl k v := by
  simp [dictInsert, h]

theorem alookup_eq_none_of_not_mem [DecidableEq α] (m : List (α × β)) (k : α)
    (h : k ∉ m.map Prod.fst) : alookup m k = none := by
  induction m with
  | nil => rfl
  | cons hd tl ih =>
      obtain ⟨k0, v0⟩ := hd
      simp only [List.map_cons, List.mem_cons] at h
      push_neg at h
      simp only [alookup, if_neg h.1]
      exact ih h.2

theorem mem_keys_dictInsert [DecidableEq α] (m : List (α × β)) (k a : α) (v : β) :
    a ∈ (dictInsert m k v).map Prod.fst ↔ a = k ∨ a ∈ m.map Prod.fst := by
  induction m with
  | nil => simp [dictInsert]
  | cons hd tl ih =>
      obtain ⟨k0, v0⟩ := hd
      by_cases h : k0 = k
      · subst h
        simp [dictInsert]
      · rw [dictInsert_cons_ne k0 k v0 v tl h]
        simp only [List.map_cons, List.mem_cons, ih]
        tauto

theorem dictInsert_keys_nodup [DecidableEq α] (m : List (α × β)) (k : α) (v : β)
    (h : (m.map Prod.fst).Nodup) : ((dictInsert m k v).map Prod.fst).Nodup := by
  induction m with
  | nil => simp [dictInsert]
  | cons hd tl ih =>
      obtain ⟨k0, v0⟩ := hd
      simp only [List.map_cons, List.nodup_cons] at h
      by_cases hk : k0 = k
      · subst hk
        rw [dictInsert_cons_self k0 v0 v tl]
        simp only [List.map_cons, List.nodup_cons]
        exact h
      · rw [dictInsert_cons_ne k0 k v0 v tl hk]
        simp only [List.map_cons, List.nodup_cons]
        constructor
        · rw [mem_keys_dictInsert]
          push_neg
          exact ⟨hk, h.1⟩
        · exact ih h.2

/-- Last-binding-wins lookup, with a starting value: the effect of
Python's repeated dict assignments over a traversal. -/
def lastFrom (l : KMap) (k : K3) (init : Option ℚ) : Option ℚ :=
  l.foldl (fun r kv => if kv.1 = k then some kv.2 else r) init

theorem lastFrom_of_not_mem (l : KMap) (k : K3) (init : Option ℚ)
    (h : k ∉ l.map Prod.fst) : lastFrom l k init = init := by
  induction l generalizing init with
  | nil => rfl
  | cons hd tl ih =>
      obtain ⟨k0, v0⟩ := hd
      simp only [List.map_cons, List.mem_cons] at h
      push_neg at h
      have hne : ¬ (((k0, v0) : K3 × ℚ).1 = k) := fun he => h.1 he.symm
      unfold lastFrom
      rw [List.foldl_cons, if_neg hne]
      exact ih init h.2

theorem lastFrom_eq_alookup (m : KMap) (k : K3) (h : (m.map Prod.fst).Nodup) :
    lastFrom m k none = alookup m k := by
  induction m with
  | nil => rfl
  | cons hd tl ih =>
      obtain ⟨k0, v0⟩ := hd
      simp only [List.map_cons, List.nodup_cons] at h
      unfold lastFrom
      rw [List.foldl_cons]
      by_cases hk : k0 = k
      · subst hk
        rw [if_pos rfl]
        rw [alookup_cons_self k0 v0 tl]
        exact lastFrom_of_not_mem tl k0 (some v0) h.1
      · rw [if_neg hk]
        rw [alookup_cons_ne k0 k v0 tl (fun he => hk he.symm)]
        exact ih h.2

/-- The grouping accumulator of `_apply_pairs_from_base`:
`by_exp_tb[(exp, tb)] : Dict[str, float]` mapping offsets to totals. -/
abbrev GList := List ((String × String) × List (String × ℚ))

/-- One grouping step: `by_exp_tb[(exp, tb)][off] = tot` (with
`defaultdict(dict)` creating the inner dict on first touch). -/
def groupStep (acc : GList) (entry : K3 × ℚ) : GList :=
  dictInsert acc (entry.1.1, entry.1.2.2)
    (dictInsert ((alookup acc (entry.1.1, entry.1.2.2)).getD []) entry.1.2.1 entry.2)

/-- `_apply_pairs_from_base`, step 1: group base totals by
`(exp, tb)`. -/
def groupByExpTb (base : KMap) : GList :=
  base.foldl groupStep []

/-- The offset value recorded for `(e, tb)` in a grouping
accumulator. -/
def innerAt (acc : GList) (e tb o : String) : Option ℚ :=
  alookup ((alookup acc (e, tb)).getD []) o

theorem groupStep_innerAt (acc : GList) (entry : K3 × ℚ) (e tb o : String) :
    innerAt (groupStep acc entry) e tb o =
      if entry.1 = (e, o, tb) then some entry.2 else innerAt acc e tb o := by
  obtain ⟨⟨e0, o0, tb0⟩, t⟩ := entry
  unfold groupStep innerAt
  by_cases hkey : ((e0, o0, tb0) : K3) = (e, o, tb)
  · rw [if_pos hkey]
    obtain ⟨he, ho, htb⟩ : e0 = e ∧ o0 = o ∧ tb0 = tb := by
      simpa [Prod.ext_iff] using hkey
    subst he; subst ho; subst htb
    rw [alookup_dictInsert_self]
    simp only [Option.getD_some]
    rw [alookup_dictInsert_self]
  · rw [if_neg hkey]
    by_cases houter : ((e0, tb0) : String × String) = (e, tb)
    · obtain ⟨he, htb⟩ : e0 = e ∧ tb0 = tb := by simpa [Prod.ext_iff] using houter
      subst he; subst htb
      have hkey' : ¬ (o0 = o) := by
        intro h; exact hkey (by rw [h])
      rw [alookup_dictInsert_self]
      simp only [Option.getD_some]
      rw [alookup_dictInsert_ne _ _ _ _ (fun he => hkey' he.symm)]
    · rw [alookup_dictInsert_ne _ _ _ _ (fun hh => houter hh.symm)]

theorem group_fold_innerAt (l : KMap) :
    ∀ (acc : GList) (e tb o : String),
      innerAt (l.foldl groupStep acc) e tb o =
        lastFrom l (e, o, tb) (innerAt acc e tb o) := by
  induction l with
  | nil => intro acc e tb o; rfl
  | cons x xs ih =>
      intro acc e tb o
      rw [List.foldl_cons]
      rw [ih (groupStep acc x) e tb o]
      unfold lastFrom
      rw [List.foldl_cons]
      rw [groupStep_innerAt]

theorem groupByExpTb_innerAt (base : KMap) (hbase : (base.map Prod.fst).Nodup)
    (e tb o : String) :
    innerAt (groupByExpTb base) e tb o = alookup base (e, o, tb) := by
  unfold groupByExpTb
  rw [group_fold_innerAt base [] e tb o]
  exact lastFrom_eq_alookup base (e, o, tb) hbase

theorem groupByExpTb_keys_nodup (base : KMap) :
    ((groupByExpTb base).map Prod.fst).Nodup := by
  unfold groupByExpTb
  have h : ∀ (l : KMap) (acc : GList), (acc.map Prod.fst).Nodup →
      ((l.foldl groupStep acc).map Prod.fst).Nodup := by
    intro l
    induction l with
    | nil => intro acc h; exact h
    | cons x xs ih =>
        intro acc h
        rw [List.foldl_cons]
        exact ih _ (dictInsert_keys_nodup _ _ _ h)
  exact h base [] (by simp)

/-- `_apply_pairs_from_base`, step 2, one group: emit
`out[(exp, "atm_p1m1", tb)] = (p1 + m1) / 2` and
`out[(exp, "atm_p2m2", tb)] = (p2 + m2) / 2` when both legs exist. -/
def outStep (out : KMap) (entry : (String × String) × List (String × ℚ)) : KMap :=
  let out1 :=
    match alookup entry.2 "atm_p1", alookup entry.2 "atm_m1" with
    | some a, some b => dictInsert out (entry.1.1, "atm_p1m1", entry.1.2) ((a + b) / 2)
    | _, _ => out
  match alookup entry.2 "atm_p2", alookup entry.2 "atm_m2" with
  | some a, some b => dictInsert out1 (entry.1.1, "atm_p2m2", entry.1.2) ((a + b) / 2)
  | _, _ => out1

/-- `adv_aggregator._apply_pairs_from_base`: group base totals by
`(exp, tb)`, then derive both straddle series. -/
def applyPairsFromBase (base : KMap) : KMap :=
  (groupByExpTb base).foldl outStep []

theorem outStep_lookup₁ (out : KMap) (entry : (String × String) × List (String × ℚ))
    (e tb : String) :
    alookup (outStep out entry) (e, "atm_p1m1", tb) =
      if entry.1 = (e, tb) then
        match alookup entry.2 "atm_p1", alookup entry.2 "atm_m1" with
        | some a, some b => some ((a + b) / 2)
        | _, _ => alookup out (e, "atm_p1m1", tb)
      else alookup out (e, "atm_p1m1", tb) := by
  obtain ⟨⟨e0, tb0⟩, vals⟩ := entry
  unfold outStep
  have hne2 : ∀ (out' : KMap) (v : ℚ),
      alookup (dictInsert out' (e0, "atm_p2m2", tb0) v) (e, "atm_p1m1", tb) =
        alookup out' (e, "atm_p1m1", tb) := by
    intro out' v
    apply alookup_dictInsert_ne
    intro h
    have hmid : ("atm_p1m1" : String) = "atm_p2m2" := (Prod.ext_iff.mp (Prod.ext_iff.mp h).2).1
    exact absurd hmid (by decide)
  cases hp1 : alookup vals "atm_p1" <;>
    cases hm1 : alookup vals "atm_m1" <;>
    cases hp2 : alookup vals "atm_p2" <;>
    cases hm2 : alookup vals "atm_m2" <;>
    simp only [] <;>
    (try rw [hne2 _ _]) <;>
    first
      | (split <;> rfl)
      | (by_cases hk : ((e0, tb0) : String × String) = (e, tb)
         · obtain ⟨he, htb⟩ : e0 = e ∧ tb0 = tb := by simpa [Prod.ext_iff] using hk
           subst he; subst htb
           rw [if_pos rfl, alookup_dictInsert_self]
         · rw [if_neg hk]
           apply alookup_dictInsert_ne
           intro hcontra
           apply hk
           have h1 : e = e0 := (Prod.ext_iff.mp hcontra).1
           have h3 : tb = tb0 := (Prod.ext_iff.mp (Prod.ext_iff.mp hcontra).2).2
           rw [← h1, ← h3])

theorem outStep_lookup₂ (out : KMap) (entry : (String × String) × List (String × ℚ))
    (e tb : String) :
    alookup (outStep out entry) (e, "atm_p2m2", tb) =
      if entry.1 = (e, tb) then
        match alookup entry.2 "atm_p2", alookup entry.2 "atm_m2" with
        | some a, some b => some ((a + b) / 2)
        | _, _ => alookup out (e, "atm_p2m2", tb)
      else alookup out (e, "atm_p2m2", tb) := by
  obtain ⟨⟨e0, tb0⟩, vals⟩ := entry
  unfold outStep
  have hne1 : ∀ (out' : KMap) (v : ℚ),
      alookup (dictInsert out' (e0, "atm_p1m1", tb0) v) (e, "atm_p2m2", tb) =
        alookup out' (e, "atm_p2m2", tb) := by
    intro out' v
    apply alookup_dictInsert_ne
    intro h
    have hmid : ("atm_p2m2" : String) = "atm_p1m1" := (Prod.ext_iff.mp (Prod.ext_iff.mp h).2).1
    exact absurd hmid (by decide)
  cases hp1 : alookup vals "atm_p1" <;>
    cases hm1 : alookup vals "atm_m1" <;>
    cases hp2 : alookup vals "atm_p2" <;>
    cases hm2 : alookup vals "atm_m2" <;>
    simp only [] <;>
    first
      | ((try rw [hne1 _ _]); (split <;> rfl))
      | (by_cases hk : ((e0, tb0) : String × String) = (e, tb)
         · obtain ⟨he, htb⟩ : e0 = e ∧ tb0 = tb := by simpa [Prod.ext_iff] using hk
           subst he; subst htb
           rw [if_pos rfl, alookup_dictInsert_self]
         · rw [if_neg hk]
           rw [alookup_dictInsert_ne _ _ _ _ (fun hcontra => by
             apply hk
             have h1 : e = e0 := (Prod.ext_iff.mp hcontra).1
             have h3 : tb = tb0 := (Prod.ext_iff.mp (Prod.ext_iff.mp hcontra).2).2
             rw [← h1, ← h3])]
           try first
             | rw [hne1 _ _]
             | rfl)

theorem out_fold_lookup₁ (g : GList) :
    ∀ (out : KMap), ((g.map Prod.fst).Nodup) → ∀ (e tb : String),
      alookup (g.foldl outStep out) (e, "atm_p1m1", tb) =
        match alookup g (e, tb) with
        | some vals =>
            match alookup vals "atm_p1", alookup vals "atm_m1" with
            | some a, some b => some ((a + b) / 2)
            | _, _ => alookup out (e, "atm_p1m1", tb)
        | none => alookup out (e, "atm_p1m1", tb) := by
  induction g with
  | nil => intro out _ e tb; rfl
  | cons entry rest ih =>
      intro out hnd e tb
      obtain ⟨ek, vals⟩ := entry
      simp only [List.map_cons, List.nodup_cons] at hnd
      rw [List.foldl_cons]
      rw [ih (outStep out (ek, vals)) hnd.2 e tb]
      by_cases hk : ek = (e, tb)
      · subst hk
        rw [alookup_cons_self]
        rw [alookup_eq_none_of_not_mem rest _ hnd.1]
        simp only []
        rw [outStep_lookup₁, if_pos rfl]
      · rw [alookup_cons_ne ek (e, tb) vals rest (fun h => hk h.symm)]
        cases hrest : alookup rest (e, tb) with
        | none =>
            simp only []
            rw [outStep_lookup₁, if_neg hk]
        | some vals' =>
            simp only []
            cases hp : alookup vals' "atm_p1" <;> cases hm : alookup vals' "atm_m1" <;>
              simp only [] <;> rw [outStep_lookup₁, if_neg hk]

theorem out_fold_lookup₂ (g : GList) :
    ∀ (out : KMap), ((g.map Prod.fst).Nodup) → ∀ (e tb : String),
      alookup (g.foldl outStep out) (e, "atm_p2m2", tb) =
        match alookup g (e, tb) with
        | some vals =>
            match alookup vals "atm_p2", alookup vals "atm_m2" with
            | some a, some b => some ((a + b) / 2)
            | _, _ => alookup out (e, "atm_p2m2", tb)
        | none => alookup out (e, "atm_p2m2", tb) := by
  induction g with
  | nil => intro out _ e tb; rfl
  | cons entry rest ih =>
      intro out hnd e tb
      obtain ⟨ek, vals⟩ := entry
      simp only [List.map_cons, List.nodup_cons] at hnd
      rw [List.foldl_cons]
      rw [ih (outStep out (ek, vals)) hnd.2 e tb]
      by_cases hk : ek = (e, tb)
      · subst hk
        rw [alookup_cons_self]
        rw [alookup_eq_none_of_not_mem rest _ hnd.1]
        simp only []
        rw [outStep_lookup₂, if_pos rfl]
      · rw [alookup_cons_ne ek (e, tb) vals rest (fun h => hk h.symm)]
        cases hrest : alookup rest (e, tb) with
        | none =>
            simp only []
            rw [outStep_lookup₂, if_neg hk]
        | some vals' =>
            simp only []
            cases hp : alookup vals' "atm_p2" <;> cases hm : alookup vals' "atm_m2" <;>
              simp only [] <;> rw [outStep_lookup₂, if_neg hk]

/-- The per-minute characterization of `_apply_pairs_from_base`: a
derived entry exists for `(exp, tb)` exactly when both legs exist in
the base dict, and its value is their average. -/
theorem applyPairsFromBase_lookup (base : KMap) (hbase : (base.map Prod.fst).Nodup)
    (e tb : String) :
    (alookup (applyPairsFromBase base) (e, "atm_p1m1", tb) =
      match alookup base (e, "atm_p1", tb), alookup base (e, "atm_m1", tb) with
      | some a, some b => some ((a + b) / 2)
      | _, _ => none) ∧
    (alookup (applyPairsFromBase base) (e, "atm_p2m2", tb) =
      match alookup base (e, "atm_p2", tb), alookup base (e, "atm_m2", tb) with
      | some a, some b => some ((a + b) / 2)
      | _, _ => none) := by
  have hinner : ∀ o : String, innerAt (groupByExpTb base) e tb o = alookup base (e, o, tb) :=
    fun o => groupByExpTb_innerAt base hbase e tb o
  unfold applyPairsFromBase
  rw [out_fold_lookup₁ _ _ (groupByExpTb_keys_nodup base) e tb,
    out_fold_lookup₂ _ _ (groupByExpTb_keys_nodup base) e tb]
  cases hg : alookup (groupByExpTb base) (e, tb) with
  | none =>
      have hnone : ∀ o : String, alookup base (e, o, tb) = none := by
        intro o
        rw [← hinner o]
        unfold innerAt
        rw [hg]
        rfl
      rw [hnone "atm_p1", hnone "atm_p2"]
      exact ⟨rfl, rfl⟩
  | some vals =>
      have hv : ∀ o : String, alookup vals o = alookup base (e, o, tb) := by
        intro o
        rw [← hinner o]
        unfold innerAt
        rw [hg]
        rfl
      rw [← hv "atm_p1", ← hv "atm_m1", ← hv "atm_p2", ← hv "atm_m2"]
      exact ⟨rfl, rfl⟩

/-- The paired-source fallback of `stream_update_for_latest_minute` and
`aggregate_eod_paired`:
`if not pairs_from_files: pairs_from_files = _apply_pairs_from_base(base)`
— whole-map selection, never a per-minute blend. -/
def pairsEffective (base pairsFromFiles : KMap) : KMap :=
  if pairsFromFiles = [] then applyPairsFromBase base else pairsFromFiles

/-- C6: the derived `atm_p1m1` (resp. `atm_p2m2`) series equals
`(total[atm_p1] + total[atm_m1]) / 2` (resp. the `±2` pair) and exists
for a minute exactly when both base legs exist for that minute; a
directly observed paired source is used verbatim in place of the
derived series (never blended); and the 12.5/7.5 ↦ 10.0 scenario. -/
theorem C6_pair_derivation (base direct : KMap)
    (hbase : (base.map Prod.fst).Nodup) (e tb : String) :
    (alookup (applyPairsFromBase base) (e, "atm_p1m1", tb) =
      match alookup base (e, "atm_p1", tb), alookup base (e, "atm_m1", tb) with
      | some a, some b => some ((a + b) / 2)
      | _, _ => none) ∧
    (alookup (applyPairsFromBase base) (e, "atm_p2m2", tb) =
      match alookup base (e, "atm_p2", tb), alookup base (e, "atm_m2", tb) with
      | some a, some b => some ((a + b) / 2)
      | _, _ => none) ∧
    (∀ a b : ℚ, alookup base (e, "atm_p1", tb) = some a →
      alookup base (e, "atm_m1", tb) = some b →
      alookup (applyPairsFromBase base) (e, "atm_p1m1", tb) = some ((a + b) / 2)) ∧
    (∀ (k : K3) (v : ℚ), alookup direct k = some v →
      alookup (pairsEffective base direct) k = some v) ∧
    (direct = [] → pairsEffective base direct = applyPairsFromBase base) ∧
    (alookup (applyPairsFromBase
        [(("tw", "atm_p1", "10:15"), 25 / 2), (("tw", "atm_m1", "10:15"), 15 / 2)])
      ("tw", "atm_p1m1", "10:15") = some 10) := by
  obtain ⟨h1, h2⟩ := applyPairsFromBase_lookup base hbase e tb
  refine ⟨h1, h2, ?_, ?_, ?_, ?_⟩
  · intro a b ha hb
    rw [h1, ha, hb]
  · intro k v hk
    have hne : direct ≠ [] := by
      intro h
      rw [h] at hk
      exact Option.noConfusion hk
    unfold pairsEffective
    rw [if_neg hne]
    exact hk
  · intro h
    unfold pairsEffective
    rw [if_pos h]
  · have hnodup : (([(("tw", "atm_p1", "10:15"), (25 / 2 : ℚ)),
        (("tw", "atm_m1", "10:15"), 15 / 2)] : KMap).map Prod.fst).Nodup := by decide
    obtain ⟨hc, _⟩ := applyPairsFromBase_lookup _ hnodup "tw" "10:15"
    rw [hc]
    have hp : alookup ([(("tw", "atm_p1", "10:15"), (25 / 2 : ℚ)),
        (("tw", "atm_m1", "10:15"), 15 / 2)] : KMap) ("tw", "atm_p1", "10:15") =
        some (25 / 2) := rfl
    have hm : alookup ([(("tw", "atm_p1", "10:15"), (25 / 2 : ℚ)),
        (("tw", "atm_m1", "10:15"), 15 / 2)] : KMap) ("tw", "atm_m1", "10:15") =
        some (15 / 2) := rfl
    rw [hp, hm]
    norm_num

/-- Witness for C6: a two-leg base and a directly observed paired
series at concrete values. -/
theorem C6_pair_derivation_witness :
    (alookup (applyPairsFromBase
        [(("tw", "atm_p1", "10:15"), 25 / 2), (("tw", "atm_m1", "10:15"), 15 / 2)])
      ("tw", "atm_p1m1", "10:15") = some ((25 / 2 + 15 / 2) / 2)) ∧
    (alookup (pairsEffective
        [(("tw", "atm_p1", "10:15"), 25 / 2), (("tw", "atm_m1", "10:15"), 15 / 2)]
        [(("tw", "atm_p1m1", "10:15"), 7)]) ("tw", "atm_p1m1", "10:15") = some 7) :=
  ⟨(C6_pair_derivation
      [(("tw", "atm_p1", "10:15"), 25 / 2), (("tw", "atm_m1", "10:15"), 15 / 2)]
      [(("tw", "atm_p1m1", "10:15"), 7)] (by decide) "tw" "10:15").2.2.1
      (25 / 2) (15 / 2) rfl rfl,
   (C6_pair_derivation
      [(("tw", "atm_p1", "10:15"), 25 / 2), (("tw", "atm_m1", "10:15"), 15 / 2)]
      [(("tw", "atm_p1m1", "10:15"), 7)] (by decide) "tw" "10:15").2.2.2.1
      ("tw", "atm_p1m1", "10:15") 7 rfl⟩

/-- Days between a civil date and 1970-01-01 (proleptic Gregorian,
the arithmetic underlying `datetime.date`). -/
def daysFromCivil (y m d : Int) : Int :=
  let y' := if m ≤ 2 then y - 1 else y
  let era := (if 0 ≤ y' then y' else y' - 399) / 400
  let yoe := y' - era * 400
  let doy := (153 * (if 2 < m then m - 3 else m + 9) + 2) / 5 + d - 1
  let doe := yoe * 365 + yoe / 4 - yoe / 100 + doy
  era * 146097 + doe - 719468

/-- Python `date.weekday()`: Monday = 0 … Sunday = 6 (1970-01-01 was a
Thursday, weekday 3). -/
def pythonWeekday (y m d : Nat) : Nat :=
  ((daysFromCivil y m d + 3) % 7).toNat

/-- `adv_config.WEEKDAY_CODE` (a total function on the weekday indices
0-6 produced by `date.weekday()`). -/
def WEEKDAY_CODE (i : Nat) : String :=
  match i with
  | 0 => "mon" | 1 => "tue" | 2 => "wed" | 3 => "thu" | 4 => "fri" | 5 => "sat" | _ => "sun"

/-- `adv_aggregator.weekday_code_from_date` on the date parsed by
`strptime(f"{date_str} {tb}", "%Y-%m-%d %H:%M")` (only the date part
feeds the weekday). -/
def weekday_code_from_date (y m d : Nat) : String :=
  WEEKDAY_CODE (pythonWeekday y m d)

/-- The Mon-Fri filter tuple of the base-update loop:
`("mon", "tue", "wed", "thu", "fri")`. -/
def tradingWeekdays : List String := ["mon", "tue", "wed", "thu", "fri"]

inductive MergeSrc
  | base
  | pair
  deriving Repr, DecidableEq

/-- One `_apply_weekday_update` call performed by a streaming pass for
one index: which loop issued it, the master-file selector
`(expiry_code, strike_offset, weekday)`, the bucket and the total. -/
structure StreamMerge where
  src : MergeSrc
  expiry_code : String
  strike_offset : String
  weekday : String
  tb : String
  tot : ℚ
  deriving Repr, DecidableEq

/-- The sequence of merges performed by
`stream_update_for_latest_minute` for one index over the split-file
totals `base` and `pairsFromFiles` for the parsed date `(y, m, d)`:
the base loop skips non-trading weekdays (`continue` unless Mon-Fri);
the pair loop (direct paired files, else the Pair Deriver output) is
applied unconditionally.  No ledger is consulted anywhere. -/
def streamMerges (y m d : Nat) (base pairsFromFiles : KMap) : List StreamMerge :=
  let wcode := weekday_code_from_date y m d
  (base.filterMap (fun kv =>
    if wcode ∈ tradingWeekdays then
      some ⟨MergeSrc.base, kv.1.1, kv.1.2.1, wcode, kv.1.2.2, kv.2⟩
    else none)) ++
  ((pairsEffective base pairsFromFiles).map (fun kv =>
    ⟨MergeSrc.pair, kv.1.1, kv.1.2.1, wcode, kv.1.2.2, kv.2⟩))

/-- Master-file selector within one index. -/
abbrev FileKey := String × String × String

/-- The per-index persisted state: master-file contents by
`(expiry_code, strike_offset, weekday)`. -/
abbrev World := List (FileKey × Master)

/-- One merge applied to the persisted state: read the master, apply
`_apply_weekday_update`, write it back. -/
def applyMergeToWorld (w : World) (sm : StreamMerge) (now : String) : World :=
  let k : FileKey := (sm.expiry_code, sm.strike_offset, sm.weekday)
  dictInsert w k (applyWeekdayUpdate ((alookup w k).getD []) sm.tb sm.tot now)

/-- One full streaming pass for one index. -/
def runStreamPass (y m d : Nat) (base pairsFromFiles : KMap) (now : String) (w : World) :
    World :=
  (streamMerges y m d base pairsFromFiles).foldl
    (fun acc sm => applyMergeToWorld acc sm now) w

theorem stream_world_proj (ms : List StreamMerge) (now : String) :
    ∀ (w : World) (k : FileKey),
      (alookup (ms.foldl (fun acc sm => applyMergeToWorld acc sm now) w) k).getD [] =
        (ms.filter (fun sm =>
            decide (((sm.expiry_code, sm.strike_offset, sm.weekday) : FileKey) = k))).foldl
          (fun mast sm => applyWeekdayUpdate mast sm.tb sm.tot now)
          ((alookup w k).getD []) := by
  induction ms with
  | nil => intro w k; rfl
  | cons sm rest ih =>
      intro w k
      rw [List.foldl_cons]
      rw [ih (applyMergeToWorld w sm now) k]
      by_cases hk : ((sm.expiry_code, sm.strike_offset, sm.weekday) : FileKey) = k
      · rw [List.filter_cons_of_pos (by simpa using hk), List.foldl_cons]
        have : (alookup (applyMergeToWorld w sm now) k).getD [] =
            applyWeekdayUpdate ((alookup w k).getD []) sm.tb sm.tot now := by
          unfold applyMergeToWorld
          rw [hk, alookup_dictInsert_self]
          rfl
        rw [this]
      · rw [List.filter_cons_of_neg (by simpa using hk)]
        have : (alookup (applyMergeToWorld w sm now) k).getD [] =
            (alookup w k).getD [] := by
          unfold applyMergeToWorld
          rw [alookup_dictInsert_ne _ _ _ _ (fun h => hk h.symm)]
        rw [this]

theorem stream_row_proj (ms : List StreamMerge) (now : String) :
    ∀ (mast : Master) (tb : String),
      alookup (ms.foldl (fun m sm => applyWeekdayUpdate m sm.tb sm.tot now) mast) tb =
        ((ms.filter (fun sm => decide (sm.tb = tb))).map StreamMerge.tot).foldl
          (fun r v => some (mergeRow r tb v now)) (alookup mast tb) := by
  induction ms with
  | nil => intro mast tb; rfl
  | cons sm rest ih =>
      intro mast tb
      rw [List.foldl_cons]
      rw [ih (applyWeekdayUpdate mast sm.tb sm.tot now) tb]
      by_cases htb : sm.tb = tb
      · rw [List.filter_cons_of_pos (by simpa using htb), List.map_cons, List.foldl_cons]
        rw [← htb, alookup_applyWeekdayUpdate_self]
      · rw [List.filter_cons_of_neg (by simpa using htb)]
        rw [alookup_applyWeekdayUpdate_ne _ _ _ _ _ (fun h => htb h.symm)]

/-- The totals merged into bucket `tb` of file `k` by a list of
streaming merges, in order. -/
def hitsOf (ms : List StreamMerge) (k : FileKey) (tb : String) : List ℚ :=
  ((ms.filter (fun sm =>
      decide (((sm.expiry_code, sm.strike_offset, sm.weekday) : FileKey) = k))).filter
    (fun sm => decide (sm.tb = tb))).map StreamMerge.tot

/-- The row stored for bucket `tb` of file `k` after applying `ms`. -/
def rowAfter (ms : List StreamMerge) (now : String) (w : World) (k : FileKey) (tb : String) :
    Option WeekdayRow :=
  alookup ((alookup (ms.foldl (fun acc sm => applyMergeToWorld acc sm now) w) k).getD []) tb

theorem rowAfter_eq (ms : List StreamMerge) (now : String) (w : World) (k : FileKey)
    (tb : String) :
    rowAfter ms now w k tb =
      (hitsOf ms k tb).foldl (fun r v => some (mergeRow r tb v now))
        (alookup ((alookup w k).getD []) tb) := by
  unfold rowAfter hitsOf
  rw [stream_world_proj ms now w k]
  rw [stream_row_proj]

/-- C7: the streaming updater has no ledger gate — a second streaming
pass over the same date's unchanged split-file totals issues the very
same merge sequence again, and a bucket that received total `t` in the
first pass receives it again: its `n` is incremented a second time and
`t` is added into `sum` again (silent double counting, unlike the
ledger-gated bulk reconciler). -/
theorem C7_stream_double_count (y m d : Nat) (base pairs : KMap) (now now2 : String)
    (w : World) (k : FileKey) (tb : String) (t : ℚ) (r1 : WeekdayRow)
    (hhits : hitsOf (streamMerges y m d base pairs) k tb = [t])
    (h1 : rowAfter (streamMerges y m d base pairs) now w k tb = some r1) :
    ∃ r2, rowAfter (streamMerges y m d base pairs) now2
        (runStreamPass y m d base pairs now w) k tb = some r2 ∧
      r2.n_tot = r1.n_tot + 1 ∧
      r2.sum_tot = r1.sum_tot + t ∧
      r2.min_tot = min r1.min_tot t ∧
      r2.max_tot = max r1.max_tot t ∧
      r2.avg_tot = (r1.sum_tot + t) / ((r1.n_tot : ℚ) + 1) := by
  have h2 := rowAfter_eq (streamMerges y m d base pairs) now2
    (runStreamPass y m d base pairs now w) k tb
  have hstart : alookup ((alookup (runStreamPass y m d base pairs now w) k).getD []) tb =
      some r1 := by
    unfold runStreamPass
    exact h1
  rw [hhits, hstart] at h2
  refine ⟨mergeRow (some r1) tb t now2, h2, ?_, ?_, ?_, ?_, ?_⟩ <;> simp [mergeRow]

/-- Witness for C7: from an empty state on Monday 2025-08-18, the base
total 100 at bucket 09:30 is merged once per pass; after the second
pass `n = 2` and `sum = 200`. -/
theorem C7_stream_double_count_witness :
    ∃ r2, rowAfter (streamMerges 2025 8 18 [(("tw", "atm", "09:30"), 100)] []) "t2"
        (runStreamPass 2025 8 18 [(("tw", "atm", "09:30"), 100)] [] "t1" [])
        ("tw", "atm", "mon") "09:30" = some r2 ∧
      r2.n_tot = (⟨"09:30", 1, 100, 100, 100, 100, "t1"⟩ : WeekdayRow).n_tot + 1 ∧
      r2.sum_tot = (⟨"09:30", 1, 100, 100, 100, 100, "t1"⟩ : WeekdayRow).sum_tot + 100 ∧
      r2.min_tot = min (⟨"09:30", 1, 100, 100, 100, 100, "t1"⟩ : WeekdayRow).min_tot 100 ∧
      r2.max_tot = max (⟨"09:30", 1, 100, 100, 100, 100, "t1"⟩ : WeekdayRow).max_tot 100 ∧
      r2.avg_tot = ((⟨"09:30", 1, 100, 100, 100, 100, "t1"⟩ : WeekdayRow).sum_tot + 100) /
        (((⟨"09:30", 1, 100, 100, 100, 100, "t1"⟩ : WeekdayRow).n_tot : ℚ) + 1) :=
  C7_stream_double_count 2025 8 18 [(("tw", "atm", "09:30"), 100)] [] "t1" "t2" []
    ("tw", "atm", "mon") "09:30" 100 ⟨"09:30", 1, 100, 100, 100, 100, "t1"⟩ rfl rfl

/-- C8: in a streaming pass, a base (primary-offset) total is merged
exactly when the weekday derived from the observation's calendar date
is Mon-Fri; a pair total (direct or derived) is merged regardless of
that weekday; every merge targets the derived weekday's master.
Concretely, 2025-08-16 is "sat": its pass has no base merges but still
has the pair merges. -/
theorem C8_weekday_filter (y m d : Nat) (base pairs : KMap) (e off tb : String) (t : ℚ) :
    ((⟨MergeSrc.base, e, off, weekday_code_from_date y m d, tb, t⟩ : StreamMerge) ∈
        streamMerges y m d base pairs ↔
      ((e, off, tb), t) ∈ base ∧ weekday_code_from_date y m d ∈ tradingWeekdays) ∧
    ((⟨MergeSrc.pair, e, off, weekday_code_from_date y m d, tb, t⟩ : StreamMerge) ∈
        streamMerges y m d base pairs ↔
      ((e, off, tb), t) ∈ pairsEffective base pairs) ∧
    (∀ sm ∈ streamMerges y m d base pairs, sm.weekday = weekday_code_from_date y m d) ∧
    (weekday_code_from_date 2025 8 16 = "sat") ∧
    (streamMerges 2025 8 16 [(("tw", "atm_p1", "10:15"), 100)]
        [(("tw", "atm_p1m1", "10:15"), 50)] =
      [⟨MergeSrc.pair, "tw", "atm_p1m1", "sat", "10:15", 50⟩]) := by
  refine ⟨?_, ?_, ?_, by decide, ?_⟩
  · constructor
    · intro h
      rcases List.mem_append.mp h with h | h
      · rcases List.mem_filterMap.mp h with ⟨kv, hkv, heq⟩
        by_cases hw : weekday_code_from_date y m d ∈ tradingWeekdays
        · rw [if_pos hw, Option.some.injEq, StreamMerge.mk.injEq] at heq
          obtain ⟨⟨ke, ko, ktb⟩, kt⟩ := kv
          obtain ⟨-, he, ho, -, htb, ht⟩ := heq
          subst he; subst ho; subst htb; subst ht
          exact ⟨hkv, hw⟩
        · rw [if_neg hw] at heq
          exact Option.noConfusion heq
      · rcases List.mem_map.mp h with ⟨kv, _, heq⟩
        rw [StreamMerge.mk.injEq] at heq
        exact absurd heq.1 (by intro hc; exact MergeSrc.noConfusion hc)
    · rintro ⟨hmem, hw⟩
      apply List.mem_append.mpr
      left
      apply List.mem_filterMap.mpr
      exact ⟨((e, off, tb), t), hmem, by rw [if_pos hw]⟩
  · constructor
    · intro h
      rcases List.mem_append.mp h with h | h
      · rcases List.mem_filterMap.mp h with ⟨kv, hkv, heq⟩
        by_cases hw : weekday_code_from_date y m d ∈ tradingWeekdays
        · rw [if_pos hw, Option.some.injEq, StreamMerge.mk.injEq] at heq
          exact absurd heq.1 (by intro hc; exact MergeSrc.noConfusion hc)
        · rw [if_neg hw] at heq
          exact Option.noConfusion heq
      · rcases List.mem_map.mp h with ⟨kv, hkv, heq⟩
        obtain ⟨⟨ke, ko, ktb⟩, kt⟩ := kv
        rw [StreamMerge.mk.injEq] at heq
        obtain ⟨-, he, ho, -, htb, ht⟩ := heq
        subst he; subst ho; subst htb; subst ht
        exact hkv
    · intro hmem
      apply List.mem_append.mpr
      right
      apply List.mem_map.mpr
      exact ⟨((e, off, tb), t), hmem, rfl⟩
  · intro sm hsm
    rcases List.mem_append.mp hsm with h | h
    · rcases List.mem_filterMap.mp h with ⟨kv, _, heq⟩
      by_cases hw : weekday_code_from_date y m d ∈ tradingWeekdays
      · rw [if_pos hw, Option.some.injEq] at heq
        rw [← heq]
      · rw [if_neg hw] at heq
        exact Option.noConfusion heq
    · rcases List.mem_map.mp h with ⟨kv, _, heq⟩
      rw [← heq]
  · rfl

/-- Witness for C8: Monday 2025-08-18 base membership and the direct
pair series membership, at concrete totals. -/
theorem C8_weekday_filter_witness :
    ((⟨MergeSrc.base, "tw", "atm", weekday_code_from_date 2025 8 18, "09:30", 100⟩ :
        StreamMerge) ∈
      streamMerges 2025 8 18 [(("tw", "atm", "09:30"), 100)]
        [(("tw", "atm_p1m1", "09:30"), 50)]) ∧
    ((⟨MergeSrc.pair, "tw", "atm_p1m1", weekday_code_from_date 2025 8 18, "09:30", 50⟩ :
        StreamMerge) ∈
      streamMerges 2025 8 18 [(("tw", "atm", "09:30"), 100)]
        [(("tw", "atm_p1m1", "09:30"), 50)]) :=
  ⟨(C8_weekday_filter 2025 8 18 [(("tw", "atm", "09:30"), 100)]
      [(("tw", "atm_p1m1", "09:30"), 50)] "tw" "atm" "09:30" 100).1.mpr
      ⟨List.mem_singleton.mpr rfl, by decide⟩,
   (C8_weekday_filter 2025 8 18 [(("tw", "atm", "09:30"), 100)]
      [(("tw", "atm_p1m1", "09:30"), 50)] "tw" "atm_p1m1" "09:30" 50).2.1.mpr
      (List.mem_singleton.mpr rfl)⟩

/-- A serialized CSV cell: a literal string field, an integer field
(`writerow` of an `int`), or a numeric field rendered through the
fixed 6-decimal formatter `f"{x:.6f}"` (the carried rational is the
value handed to that formatter). -/
inductive Cell
  | str (s : String)
  | nat (n : Nat)
  | fixed6 (q : ℚ)
  deriving Repr, DecidableEq

/-- `adv_io.WEEKDAY_MASTER_HEADER`. -/
def WEEKDAY_MASTER_HEADER : List String :=
  ["time_bucket", "n_tot", "sum_tot", "avg_tot", "min_tot", "max_tot", "last_updated"]

/-- The key order `sorted(rows.keys())` used by
`adv_io.write_weekday_master`. -/
def sortedKeys (rows : Master) : List String :=
  (rows.map Prod.fst).insertionSort (· ≤ ·)

/-- The rows emitted by `adv_io.write_weekday_master`'s `write_to_file`:
header, then one row per time bucket in sorted key order, numeric
fields through the 6-decimal formatter. -/
def serializeWeekdayMaster (rows : Master) : List (List Cell) :=
  (WEEKDAY_MASTER_HEADER.map Cell.str) ::
    (sortedKeys rows).map (fun tb =>
      match alookup rows tb with
      | some r => [Cell.str r.time_bucket, Cell.nat r.n_tot, Cell.fixed6 r.sum_tot,
          Cell.fixed6 r.avg_tot, Cell.fixed6 r.min_tot, Cell.fixed6 r.max_tot,
          Cell.str r.last_updated]
      | none => [])

/-- The default `AdvConfig.WEEKDAY_MASTER_PATH` template
`"{ADV_ROOT}/weekday_masters/{index}/{expiry_code}/{strike_offset}/{weekday}.csv"`
instantiated by `.format(...)`. -/
def weekdayMasterPath (root index expiry_code strike_offset weekday : String) : String :=
  root ++ "/weekday_masters/" ++ index ++ "/" ++ expiry_code ++ "/" ++ strike_offset ++
    "/" ++ weekday ++ ".csv"

/-- `weekday_master_bulk.MASTER_COLUMNS`. -/
def MASTER_COLUMNS : List String := ["HH:MM", "HIST_AVG", "COUNTER", "LAST_UPDATED"]

/-- `weekday_master_bulk.master_path`:
`weekday_root / index / expiry / strike / WEEKDAY_{index}_{expiry}_{strike}_MASTER.csv`. -/
def master_path (weekday_root index expiry strike : String) : String :=
  weekday_root ++ "/" ++ index ++ "/" ++ expiry ++ "/" ++ strike ++ "/WEEKDAY_" ++ index ++
    "_" ++ expiry ++ "_" ++ strike ++ "_MASTER.csv"

/-- The key order `sorted(rows.items()) by key` used by
`write_master_atomic` (items sorted by `HH:MM`; equal to sorted keys
for a dict). -/
def sortedBulkKeys (rows : BulkMaster) : List String :=
  (rows.map Prod.fst).insertionSort (· ≤ ·)

/-- The rows emitted by `weekday_master_bulk.write_master_atomic`:
`MASTER_COLUMNS` header, then `[hhmm, f"{avg:.6f}", cnt, lu]` per
bucket in sorted `HH:MM` order. -/
def serializeBulkMaster (rows : BulkMaster) : List (List Cell) :=
  (MASTER_COLUMNS.map Cell.str) ::
    (sortedBulkKeys rows).map (fun hhmm =>
      match alookup rows hhmm with
      | some (avg, cnt, lu) => [Cell.str hhmm, Cell.fixed6 avg, Cell.nat cnt, Cell.str lu]
      | none => [])

theorem alookup_isSome_of_mem_keys [DecidableEq α] (m : List (α × β)) (k : α)
    (h : k ∈ m.map Prod.fst) : ∃ v, alookup m k = some v := by
  induction m with
  | nil => simp at h
  | cons hd tl ih =>
      obtain ⟨k0, v0⟩ := hd
      by_cases hk : k = k0
      · exact ⟨v0, by rw [hk, alookup_cons_self]⟩
      · rw [alookup_cons_ne k0 k v0 tl hk]
        apply ih
        simp only [List.map_cons, List.mem_cons] at h
        rcases h with h | h
        · exact absurd h hk
        · exact h

/-- C9 counterexample to the claim as stated: the bulk-reconciler
writer (a component that writes weekday master files) does not
reproduce the claimed layout — its columns are
`HH:MM,HIST_AVG,COUNTER,LAST_UPDATED`, not
`time_bucket,n,sum,avg,min,max,last_updated`, and its path is
`{root}/{index}/{expiry}/{strike}/WEEKDAY_{index}_{expiry}_{strike}_MASTER.csv`,
not `{root}/weekday_masters/.../{weekday}.csv`; the advanced writer's
actual header also suffixes the numeric names with `_tot`. -/
theorem C9_claim_counterexample :
    (MASTER_COLUMNS ≠ ["time_bucket", "n", "sum", "avg", "min", "max", "last_updated"]) ∧
    (WEEKDAY_MASTER_HEADER ≠ ["time_bucket", "n", "sum", "avg", "min", "max", "last_updated"]) ∧
    (master_path "WEEKDAY" "NIFTY" "this_week" "atm" =
      "WEEKDAY/NIFTY/this_week/atm/WEEKDAY_NIFTY_this_week_atm_MASTER.csv") ∧
    (master_path "WEEKDAY" "NIFTY" "this_week" "atm" ≠
      "WEEKDAY/weekday_masters/NIFTY/this_week/atm/mon.csv") := by
  refine ⟨by decide, by decide, by decide, by decide⟩

/-- C9 (amended): the advanced writer persists at
`{root}/weekday_masters/{index}/{expiry_code}/{strike_offset}/{weekday}.csv`
with the weekday code always in {mon,…,sun}, header
`time_bucket,n_tot,sum_tot,avg_tot,min_tot,max_tot,last_updated`, each
numeric field through the fixed 6-decimal formatter, and data rows in
ascending `time_bucket` order covering exactly the stored buckets; the
bulk-reconciler writer uses its own layout (`MASTER_COLUMNS` header,
`HH:MM,HIST_AVG,COUNTER,LAST_UPDATED`, average at 6 decimals, sorted
by `HH:MM`, `WEEKDAY_..._MASTER.csv` path). -/
theorem C9_persisted_layout (rows : Master) (brows : BulkMaster) (y m d : Nat) :
    ((serializeWeekdayMaster rows).head? = some (WEEKDAY_MASTER_HEADER.map Cell.str)) ∧
    List.Sorted (· ≤ ·) (sortedKeys rows) ∧
    (sortedKeys rows).Perm (rows.map Prod.fst) ∧
    (∀ l ∈ (serializeWeekdayMaster rows).tail, ∃ (tb : String) (r : WeekdayRow),
      alookup rows tb = some r ∧
      l = [Cell.str r.time_bucket, Cell.nat r.n_tot, Cell.fixed6 r.sum_tot,
        Cell.fixed6 r.avg_tot, Cell.fixed6 r.min_tot, Cell.fixed6 r.max_tot,
        Cell.str r.last_updated]) ∧
    (weekday_code_from_date y m d ∈ ["mon", "tue", "wed", "thu", "fri", "sat", "sun"]) ∧
    (weekdayMasterPath "root" "NIFTY 50" "this_week" "atm_p1" "mon" =
      "root/weekday_masters/NIFTY 50/this_week/atm_p1/mon.csv") ∧
    ((serializeBulkMaster brows).head? = some (MASTER_COLUMNS.map Cell.str)) ∧
    List.Sorted (· ≤ ·) (sortedBulkKeys brows) ∧
    (sortedBulkKeys brows).Perm (brows.map Prod.fst) ∧
    (∀ l ∈ (serializeBulkMaster brows).tail, ∃ (hhmm lu : String) (avg : ℚ) (cnt : Nat),
      alookup brows hhmm = some (avg, cnt, lu) ∧
      l = [Cell.str hhmm, Cell.fixed6 avg, Cell.nat cnt, Cell.str lu]) := by
  refine ⟨rfl, List.sorted_insertionSort _ _, List.perm_insertionSort _ _, ?_, ?_,
    by decide, rfl, List.sorted_insertionSort _ _, List.perm_insertionSort _ _, ?_⟩
  · intro l hl
    rcases List.mem_map.mp hl with ⟨tb, htb, heq⟩
    have hmem : tb ∈ rows.map Prod.fst :=
      (List.perm_insertionSort _ _).mem_iff.mp htb
    obtain ⟨r, hr⟩ := alookup_isSome_of_mem_keys rows tb hmem
    refine ⟨tb, r, hr, ?_⟩
    rw [← heq, hr]
  · unfold weekday_code_from_date
    rcases pythonWeekday y m d with _ | _ | _ | _ | _ | _ | i <;> simp [WEEKDAY_CODE]
  · intro l hl
    rcases List.mem_map.mp hl with ⟨hhmm, hh, heq⟩
    have hmem : hhmm ∈ brows.map Prod.fst :=
      (List.perm_insertionSort _ _).mem_iff.mp hh
    obtain ⟨v, hv⟩ := alookup_isSome_of_mem_keys brows hhmm hmem
    obtain ⟨avg, cnt, lu⟩ := v
    refine ⟨hhmm, lu, avg, cnt, hv, ?_⟩
    rw [← heq, hv]

/-- Witness for C9: a two-row master and a one-row bulk master. -/
theorem C9_persisted_layout_witness :
    ((serializeWeekdayMaster [("09:16", ⟨"09:16", 1, 80, 80, 80, 80, "t"⟩),
        ("09:15", ⟨"09:15", 2, 220, 110, 100, 120, "t"⟩)]).head? =
      some (WEEKDAY_MASTER_HEADER.map Cell.str)) ∧
    List.Sorted (· ≤ ·) (sortedKeys [("09:16", ⟨"09:16", 1, 80, 80, 80, 80, "t"⟩),
        ("09:15", ⟨"09:15", 2, 220, 110, 100, 120, "t"⟩)]) ∧
    (weekday_code_from_date 2025 8 18 ∈ ["mon", "tue", "wed", "thu", "fri", "sat", "sun"]) ∧
    ((serializeBulkMaster [("10:15", (10, 1, "2025-08-18"))]).head? =
      some (MASTER_COLUMNS.map Cell.str)) :=
  ⟨(C9_persisted_layout [("09:16", ⟨"09:16", 1, 80, 80, 80, 80, "t"⟩),
      ("09:15", ⟨"09:15", 2, 220, 110, 100, 120, "t"⟩)] [("10:15", (10, 1, "2025-08-18"))]
      2025 8 18).1,
   (C9_persisted_layout [("09:16", ⟨"09:16", 1, 80, 80, 80, 80, "t"⟩),
      ("09:15", ⟨"09:15", 2, 220, 110, 100, 120, "t"⟩)] [("10:15", (10, 1, "2025-08-18"))]
      2025 8 18).2.1,
   (C9_persisted_layout [("09:16", ⟨"09:16", 1, 80, 80, 80, 80, "t"⟩),
      ("09:15", ⟨"09:15", 2, 220, 110, 100, 120, "t"⟩)] [("10:15", (10, 1, "2025-08-18"))]
      2025 8 18).2.2.2.2.1,
   (C9_persisted_layout [("09:16", ⟨"09:16", 1, 80, 80, 80, 80, "t"⟩),
      ("09:15", ⟨"09:15", 2, 220, 110, 100, 120, "t"⟩)] [("10:15", (10, 1, "2025-08-18"))]
      2025 8 18).2.2.2.2.2.2.1⟩

/-- `session_tasks.preflight_check`: prints a warning when environment
variables are missing but returns `True` unconditionally. -/
def preflight_check : Bool := true

/-- The dataclass fields `SessionConfig` actually defines
(`session_config.py`); Python attribute access on any other name
raises `AttributeError`. -/
def sessionConfigAttrs : List String :=
  ["MARKET_TIMEZONE", "SESSION_START_HHMM", "SESSION_END_HHMM", "INDEX_LIST", "SOURCES",
   "OFFSETS", "DATE_FMT", "ENABLE_PREFLIGHT", "ENABLE_ADV_METRICS",
   "ADV_METRICS_TICK_SECONDS", "EOD_RUN_ENABLED"]

def sessionConfigHasAttr (a : String) : Bool := sessionConfigAttrs.contains a

/-- The environment of one `market_session.main` run: clock state at
startup, interrupt delivery, configuration flags, and the exit code
the Bulk EOD subprocess would return if it were reached. -/
structure SessionEnv where
  inSessionAtStart : Bool
  secsToOpen : Nat
  interruptDuringWait : Bool
  preflightEnabled : Bool
  advMetricsEnabled : Bool
  interruptDuringActive : Bool
  eodEnabled : Bool
  eodRc : Int
  deriving Repr, DecidableEq

/-- The externally observable actions of `market_session.main`. -/
inductive SessEvent
  | startMetricsProc
  | runBulkEOD
  | printSummary
  | stopProc
  deriving Repr, DecidableEq

/-- Outcome of one run: a normal return with its event list and exit
code, or an uncaught exception after the listed events. -/
inductive RunOutcome
  | returns (events : List SessEvent) (rc : Int)
  | raises (events : List SessEvent)
  deriving Repr, DecidableEq

/-- `market_session.main`: start the supervised metrics process; a
`KeyboardInterrupt` while waiting for the open prints the summary and
stops the process with exit code 130 (no EOD); a failing enabled
preflight would likewise exit 1, but `preflight_check` always returns
`True`; an interrupt during `ACTIVE` is caught and merely ends the
loop.  The Bulk EOD block then evaluates `cfg.CSV_SPLIT_ROOT`,
`cfg.WEEKDAY_ROOT` and `cfg.EOD_USE_LEDGER` before calling the
reconciler subprocess — attributes `SessionConfig` does not define, so
when EOD is enabled the run raises `AttributeError` there, reaching
neither the reconciler nor the summary nor the process stop. -/
def sessionMain (env : SessionEnv) : RunOutcome :=
  if ¬ env.inSessionAtStart ∧ 0 < env.secsToOpen ∧ env.interruptDuringWait then
    RunOutcome.returns
      [SessEvent.startMetricsProc, SessEvent.printSummary, SessEvent.stopProc] 130
  else if env.preflightEnabled ∧ ¬ preflight_check then
    RunOutcome.returns
      [SessEvent.startMetricsProc, SessEvent.printSummary, SessEvent.stopProc] 1
  else if env.eodEnabled then
    if sessionConfigHasAttr "CSV_SPLIT_ROOT" ∧ sessionConfigHasAttr "WEEKDAY_ROOT" ∧
        sessionConfigHasAttr "EOD_USE_LEDGER" then
      RunOutcome.returns [SessEvent.startMetricsProc, SessEvent.runBulkEOD,
        SessEvent.printSummary, SessEvent.stopProc] env.eodRc
    else
      RunOutcome.raises [SessEvent.startMetricsProc]
  else
    RunOutcome.returns
      [SessEvent.startMetricsProc, SessEvent.printSummary, SessEvent.stopProc] 0

/-- C10: the wait-interrupt half of the claim holds (EOD skipped, one
summary, process stopped, exit 130), but the EOD half is broken by a
code bug: `SessionConfig` defines none of `CSV_SPLIT_ROOT`,
`WEEKDAY_ROOT`, `EOD_USE_LEDGER`, and `preflight_check` always
succeeds, so every run that reaches the enabled EOD block raises an
uncaught `AttributeError` — no completed run ever invokes the Bulk
Reconciler, evaluated here at the failing input of an in-session start
with EOD enabled. -/
theorem C10_eod_attribute_error :
    (∀ env : SessionEnv,
      ¬ env.inSessionAtStart = true ∧ 0 < env.secsToOpen ∧ env.interruptDuringWait = true →
      sessionMain env = RunOutcome.returns
        [SessEvent.startMetricsProc, SessEvent.printSummary, SessEvent.stopProc] 130) ∧
    (∀ env : SessionEnv,
      ¬ (¬ env.inSessionAtStart = true ∧ 0 < env.secsToOpen ∧
        env.interruptDuringWait = true) →
      env.eodEnabled = true →
      sessionMain env = RunOutcome.raises [SessEvent.startMetricsProc]) ∧
    (∀ (env : SessionEnv) (events : List SessEvent) (rc : Int),
      sessionMain env = RunOutcome.returns events rc → SessEvent.runBulkEOD ∉ events) ∧
    sessionConfigHasAttr "CSV_SPLIT_ROOT" = false ∧
    sessionConfigHasAttr "WEEKDAY_ROOT" = false ∧
    sessionConfigHasAttr "EOD_USE_LEDGER" = false ∧
    preflight_check = true ∧
    (sessionMain ⟨true, 0, false, true, false, false, true, 0⟩ =
      RunOutcome.raises [SessEvent.startMetricsProc]) := by
  have hpre : ∀ env : SessionEnv,
      ¬ (env.preflightEnabled = true ∧ ¬ preflight_check = true) := by
    intro env hc
    exact hc.2 rfl
  refine ⟨?_, ?_, ?_, rfl, rfl, rfl, rfl, by decide⟩
  · intro env h
    unfold sessionMain
    rw [if_pos h]
  · intro env h1 h2
    unfold sessionMain
    rw [if_neg h1, if_neg (hpre env), if_pos h2, if_neg (by decide)]
  · intro env events rc h
    unfold sessionMain at h
    by_cases h1 : ¬ env.inSessionAtStart = true ∧ 0 < env.secsToOpen ∧
        env.interruptDuringWait = true
    · rw [if_pos h1, RunOutcome.returns.injEq] at h
      rw [← h.1]
      decide
    · rw [if_neg h1, if_neg (hpre env)] at h
      by_cases h2 : env.eodEnabled = true
      · rw [if_pos h2, if_neg (by decide)] at h
        exact RunOutcome.noConfusion h
      · rw [if_neg h2, RunOutcome.returns.injEq] at h
        rw [← h.1]
        decide

/-- Witness for C10: the wait-interrupted run, the crashing EOD-enabled
run, and the reconciler's absence from a completed run's events. -/
theorem C10_eod_attribute_error_witness :
    (sessionMain ⟨false, 60, true, true, false, false, true, 0⟩ =
      RunOutcome.returns
        [SessEvent.startMetricsProc, SessEvent.printSummary, SessEvent.stopProc] 130) ∧
    (sessionMain ⟨true, 0, false, true, false, false, true, 0⟩ =
      RunOutcome.raises [SessEvent.startMetricsProc]) ∧
    (SessEvent.runBulkEOD ∉
      [SessEvent.startMetricsProc, SessEvent.printSummary, SessEvent.stopProc]) :=
  ⟨C10_eod_attribute_error.1 ⟨false, 60, true, true, false, false, true, 0⟩ (by decide),
   C10_eod_attribute_error.2.1 ⟨true, 0, false, true, false, false, true, 0⟩ (by decide) rfl,
   C10_eod_attribute_error.2.2.1 ⟨false, 60, true, true, false, false, true, 0⟩
     [SessEvent.startMetricsProc, SessEvent.printSummary, SessEvent.stopProc] 130
     (C10_eod_attribute_error.1 ⟨false, 60, true, true, false, false, true, 0⟩ (by decide))⟩

end MarketApp
